import Mathlib

/-!
# Trame.js event bus — shallow embedding

A shallow embedding of the dispatch engine in `src/core.js` of Trame.js
(the "full" variant: `createEventBus` with priorities, wildcard patterns,
match cache and the multi-event combinators).  Machine-level JS details
that the claims depend on are modelled explicitly:

* JS numbers produced by the bus are either `NaN` or integers (`JsNum`);
  `++` on an uninitialised local yields `NaN`, and `x !== y` is `true`
  whenever either side is `NaN`.
* JS `Map`s are association lists preserving insertion order.
* The wildcard handler arrays are mutated in place (push/sort) but
  replaced wholesale on removal; `emit` iterates the live array object.
  We model this with an explicit array heap (`arrHeap`) and an object
  heap for the per-pattern wildcard data (`wHeap`), so aliasing behaves
  exactly as in the source.  The exact-event registry is snapshot-copied
  by `emit` (`[...handlersArray]`), so plain value semantics is faithful
  there.
* Handlers are deep-embedded programs (`HAction`): they can throw,
  subscribe and unsubscribe, which is everything the claims exercise.
  `once` and `onMany` wrappers are dedicated `Behavior` constructors
  mirroring the closures in the source.
* `Date.now()` is an explicit `now : Nat` argument at the call sites
  where the source reads the clock.
* Logging, monitoring and breakpoints are omitted: under the default
  options (`logLevel` NONE, no monitoring, no breakpoints) those code
  paths have no effect on any state modelled here.

The source line numbers in comments refer to `src/unnamed/part_002`.
-/

namespace Trame

/-- A JS number as produced by the bus's id bookkeeping: either `NaN`
(the result of `++` on an uninitialised local) or an integer. -/
inductive JsNum where
  | nan : JsNum
  | int : Int → JsNum
deriving DecidableEq, Repr

/-- JS strict inequality `a !== b` on numbers: `NaN !== x` and
`x !== NaN` are always `true`. -/
def jsNeq : JsNum → JsNum → Bool
  | JsNum.nan, _ => true
  | _, JsNum.nan => true
  | JsNum.int a, JsNum.int b => a != b

/-- A JS value as returned by `count`: a number, `NaN`, or `undefined`
(the result of reading `.size` on an `Array`). -/
inductive JsVal where
  | num : Int → JsVal
  | nan : JsVal
  | undef : JsVal
deriving DecidableEq, Repr

/-- JS `+` on the values `count` manipulates: adding `undefined` or
`NaN` to anything yields `NaN`. -/
def jsAdd : JsVal → JsVal → JsVal
  | JsVal.num a, JsVal.num b => JsVal.num (a + b)
  | _, _ => JsVal.nan

/-- `Math.min(100, Math.max(0, p))` (line 543). -/
def clampPriority (p : Int) : Int := min 100 (max 0 p)

/-- `Number(priority) || defaultPriority` (line 359): `0` is falsy, so a
zero priority silently becomes the default. -/
def jsOrDefault (p d : Int) : Int := if p = 0 then d else p

/-- JS `String.prototype.startsWith`, on character lists. -/
def jsStartsWith (s pre : String) : Bool :=
  pre.toList.isPrefixOf s.toList

/-- `!event.trim()`: true iff the string is all whitespace. -/
def jsBlank (s : String) : Bool :=
  s.toList.all (fun c => c.isWhitespace)

/-- `str.split(c)[0]`: the chunk before the first occurrence of `c`
(the whole string when `c` does not occur). -/
def splitHead (c : Char) (s : String) : String :=
  (s.toList.takeWhile (fun d => d != c)).asString

/-- `event.includes('*')` (line 279). -/
def hasWildcard (e : String) : Bool := e.toList.contains '*'

/-- `countWildcards` (lines 287-293). -/
def countWildcards (p : String) : Nat :=
  (p.toList.filter (fun c => c == '*')).length

/-!
## Wildcard matcher

`wildcardToRegExp` (lines 301-321) escapes every character except `*`
and replaces each `*` by `([^.]+)`, anchored on both sides.  `wexec`
computes `regex.exec(event)`: `some caps` with the captured substrings
(greedy, longest first, with backtracking — the capture list is the one
the regex engine reports) or `none` when the event does not match.
-/

/-- Execute the compiled pattern against an event name.  Each `*`
consumes one or more characters excluding `'.'`; every other pattern
character matches itself; the match is anchored. -/
def wexec : List Char → List Char → Option (List String)
  | [], es => if es.isEmpty then some [] else none
  | c :: ps, es =>
    if c = '*' then
      let run := (es.takeWhile (fun ch => ch != '.')).length
      (List.range run).findSome? (fun i =>
        let k := run - i
        match wexec ps (es.drop k) with
        | some caps => some ((es.take k).asString :: caps)
        | none => none)
    else
      match es with
      | [] => none
      | e :: es' => if c = e then wexec ps es' else none

/-- `wildcardData.regex.test(eventName)` (line 472). -/
def wildMatch (pattern event : String) : Bool :=
  (wexec pattern.toList event.toList).isSome

/-- `extractWildcardParams` (lines 501-510): captured substrings, or
`[]` when the regex does not match (or compilation failed). -/
def extractWildcardParams (pattern event : String) : List String :=
  (wexec pattern.toList event.toList).getD []

/-!
## Handler programs

A registered callback is modelled as a `Behavior`.  `acts` is a plain
user handler running a list of `HAction`s; `onceWrap` is the closure
built by `once` (run the user handler, then `self.off(event, onceHandler)`
— with no try/finally, lines 599-602); `manyWrap` is the
`adaptedHandler` built by `onMany` (lines 942-966), closing over the
group's shared `isUnsubscribed` flag.

`label` identifies the *user-supplied* function for observation: a trace
entry `(label, args)` is appended exactly when that user function's body
starts executing.
-/

inductive OffArg where
  | all : OffArg
  | byId : JsNum → OffArg
  | byFn : Nat → OffArg
deriving DecidableEq, Repr

inductive HAction where
  | throwErr : HAction
  | subscribe : String → Nat → List HAction → Option Int → HAction
  | offEvt : String → OffArg → HAction

inductive Behavior where
  | acts : Nat → List HAction → Behavior
  | onceWrap : Nat → String → List HAction → Behavior
  | manyWrap : Nat → Nat → String → Bool → Bool → List HAction → Behavior

/-- The label of the user function behind a behavior. -/
def behLabel : Behavior → Nat
  | Behavior.acts l _ => l
  | Behavior.onceWrap l _ _ => l
  | Behavior.manyWrap l _ _ _ _ _ => l

/-- A handler record `{ handler, priority, id }` (lines 562-566 and
357-361).  `fnId` models the JS closure identity of the stored
`handler` (used by removal-by-function-reference). -/
structure HandlerRecord where
  fnId : Nat
  beh : Behavior
  priority : Int
  id : JsNum

/-- A pattern's `wildcardData` object (lines 345-350): the compiled
regex (determined by the pattern it was compiled from), the literal
chunk before the first `*`, and a reference into the array heap for the
`handlers` array. `createdAt` is never read, so it is not modelled. -/
structure WData where
  regexSrc : String
  pfx : String
  handlersRef : Nat

/-- A match-cache entry (lines 481-484): references to the matching
`wildcardData` objects plus the last-access timestamp. -/
structure CacheEntry where
  hits : List Nat
  timestamp : Nat
deriving DecidableEq, Repr

/-- Association-list operations modelling a JS `Map` (set updates in
place, insertion order preserved; new keys append). -/
def alGet {κ α : Type} [BEq κ] (m : List (κ × α)) (k : κ) : Option α :=
  (m.find? (fun kv => kv.1 == k)).map (fun kv => kv.2)

def alSet {κ α : Type} [BEq κ] (m : List (κ × α)) (k : κ) (v : α) :
    List (κ × α) :=
  if (m.find? (fun kv => kv.1 == k)).isSome then
    m.map (fun kv => if kv.1 == k then (k, v) else kv)
  else
    m ++ [(k, v)]

def alDel {κ α : Type} [BEq κ] (m : List (κ × α)) (k : κ) :
    List (κ × α) :=
  m.filter (fun kv => kv.1 != k)

/-- The mutable closure state of `createEventBus`. -/
structure BusState where
  /-- `events : Map<string, Array<HandlerRecord>>` (line 86). -/
  events : List (String × List HandlerRecord)
  /-- `wildcardEvents : Map<string, wildcardData>` (line 89); values are
  references into `wHeap`. -/
  wildcardEvents : List (String × Nat)
  /-- Heap of `wildcardData` objects (reference semantics). -/
  wHeap : List (Nat × WData)
  /-- Heap of the wildcard handler arrays (reference semantics: push and
  sort mutate in place, removal replaces the array). -/
  arrHeap : List (Nat × List HandlerRecord)
  /-- `let handlerId = 0` (line 92): the outer id counter. -/
  handlerId : Nat
  /-- Allocator for JS closure identities (model-level). -/
  fnCounter : Nat
  wCounter : Nat
  arrCounter : Nat
  /-- `matchCache` (line 96). -/
  matchCache : List (String × CacheEntry)
  /-- `regexCache` (line 94): the set of patterns whose compiled regex
  is cached (compilation is pure, so only the key set is state). -/
  regexCache : List String
  emitCount : Nat
  wildcardMatchCount : Nat
  cacheHitCount : Nat
  cacheMissCount : Nat
  /-- Per-`onMany`-group `isUnsubscribed` flags (line 918). -/
  groupFlags : List (Nat × Bool)
  /-- Per-group `unsubscribeFunctions`: each stored capability is
  `(event, idToRemove)` for `self.off(event, idToRemove)` (line 578). -/
  groupUnsubs : List (Nat × List (String × JsNum))
  groupCounter : Nat
  /-- Observation: `(label, args)` for every user-handler invocation. -/
  trace : List (Nat × List String)

def initState : BusState :=
  { events := [], wildcardEvents := [], wHeap := [], arrHeap := []
  , handlerId := 0, fnCounter := 0, wCounter := 0, arrCounter := 0
  , matchCache := [], regexCache := []
  , emitCount := 0, wildcardMatchCount := 0
  , cacheHitCount := 0, cacheMissCount := 0
  , groupFlags := [], groupUnsubs := [], groupCounter := 0
  , trace := [] }

/-- Engine options (the claim-relevant subset of `internalOptions`). -/
structure Config where
  unifyParams : Bool
  defaultPriority : Int
  maxWildcardsPerPattern : Nat

def defaultConfig : Config :=
  { unifyParams := false, defaultPriority := 50
  , maxWildcardsPerPattern := 5 }

inductive JsErr where
  | validationError : JsErr
  | patternError : JsErr
  /-- `id is not defined` at line 576. -/
  | referenceError : JsErr
  /-- An error rethrown wrapped in a new `Error` (lines 371, 976). -/
  | wrappedError : JsErr
deriving DecidableEq, Repr

/-- Stable insertion of `x` before the first element of strictly lower
priority: this is where a stable descending sort puts a newly appended
element. -/
def insLast (x : HandlerRecord) : List HandlerRecord → List HandlerRecord
  | [] => [x]
  | y :: ys => if y.priority ≥ x.priority then y :: insLast x ys
               else x :: y :: ys

/-- Stable insertion used by `sortDesc`: the inserted element precedes
existing elements of equal priority (it came earlier in the input). -/
def insertDesc (x : HandlerRecord) :
    List HandlerRecord → List HandlerRecord
  | [] => [x]
  | y :: ys => if x.priority ≥ y.priority then x :: y :: ys
               else y :: insertDesc x ys

/-- `handlers.sort((a, b) => b.priority - a.priority)` (lines 364, 569):
a stable sort by descending priority. -/
def sortDesc : List HandlerRecord → List HandlerRecord
  | [] => []
  | x :: xs => insertDesc x (sortDesc xs)

/-!
## Match cache maintenance
-/

/-- `cleanupExpiredCache` (lines 240-254): drop every entry with
`now - timestamp > CACHE_TTL` (5000). -/
def cleanupExpiredCache (now : Nat) (s : BusState) : BusState :=
  { s with matchCache :=
      s.matchCache.filter (fun kv => now - kv.2.timestamp ≤ 5000) }

/-- Stable ascending sort of cache entries by timestamp, as
`[...].sort((a, b) => a[1].timestamp - b[1].timestamp)` (line 265). -/
def insTs (x : String × CacheEntry) :
    List (String × CacheEntry) → List (String × CacheEntry)
  | [] => [x]
  | y :: ys => if x.2.timestamp ≤ y.2.timestamp then x :: y :: ys
               else y :: insTs x ys

def sortTs : List (String × CacheEntry) → List (String × CacheEntry)
  | [] => []
  | x :: xs => insTs x (sortTs xs)

/-- `checkCacheSize` (lines 260-271): above 1000 entries, delete the 200
oldest (`Math.floor(1000 * 0.2)`). -/
def checkCacheSize (s : BusState) : BusState :=
  if s.matchCache.length > 1000 then
    let toDel := ((sortTs s.matchCache).take 200).map (fun kv => kv.1)
    { s with matchCache := toDel.foldl (fun m k => alDel m k) s.matchCache }
  else s

/-- `clearRelatedMatchCache` (lines 422-439): delete every cache entry
whose key starts with the pattern's literal head, or whose event name
is a leading chunk of the pattern. -/
def clearRelatedMatchCache (s : BusState) (pattern : String) : BusState :=
  let p := splitHead '*' pattern
  { s with matchCache := s.matchCache.filter (fun kv =>
      !(jsStartsWith kv.1 p || jsStartsWith pattern (splitHead ':' kv.1))) }

/-!
## Registration
-/

/-- The shared tail of `addWildcardIndex` (lines 353-369): draw a fresh
id from the *outer* counter, push the record onto the pattern's handler
array, re-sort it in place, and invalidate the related match cache. -/
def awiPush (cfg : Config) (s1 : BusState) (pattern : String)
    (wref : Nat) (beh : Behavior) (priority : Int) :
    BusState × Except JsErr Nat :=
  match alGet s1.wHeap wref with
  | none => (s1, Except.error JsErr.wrappedError)
  | some wd =>
    let newId := s1.handlerId + 1
    let rcd : HandlerRecord :=
      { fnId := s1.fnCounter, beh := beh
      , priority := jsOrDefault priority cfg.defaultPriority
      , id := JsNum.int newId }
    let arr := (alGet s1.arrHeap wd.handlersRef).getD []
    let s2 :=
      { s1 with
          handlerId := newId
        , fnCounter := s1.fnCounter + 1
        , arrHeap := alSet s1.arrHeap wd.handlersRef
            (sortDesc (arr ++ [rcd])) }
    (clearRelatedMatchCache s2 pattern, Except.ok newId)

/-- `addWildcardIndex` (lines 331-373): ensure the pattern's
`wildcardData` exists (compiling the regex, which fails when the
pattern has more than `maxWildcardsPerPattern` markers), then push the
new record.  The record's `fnId` is the model-level closure identity of
the stored handler. -/
def addWildcardIndex (cfg : Config) (s : BusState) (pattern : String)
    (beh : Behavior) (priority : Int) : BusState × Except JsErr Nat :=
  if jsBlank pattern then (s, Except.error JsErr.wrappedError)
  else
    match alGet s.wildcardEvents pattern with
    | some ref => awiPush cfg s pattern ref beh priority
    | none =>
      if countWildcards pattern > cfg.maxWildcardsPerPattern then
        (s, Except.error JsErr.wrappedError)
      else
        let aref := s.arrCounter
        let wref := s.wCounter
        let wd : WData :=
          { regexSrc := pattern, pfx := splitHead '*' pattern
          , handlersRef := aref }
        awiPush cfg
          { s with
              arrHeap := s.arrHeap ++ [(aref, [])]
            , wHeap := s.wHeap ++ [(wref, wd)]
            , wildcardEvents := alSet s.wildcardEvents pattern wref
            , regexCache :=
                if s.regexCache.contains pattern then s.regexCache
                else s.regexCache ++ [pattern]
            , arrCounter := s.arrCounter + 1
            , wCounter := s.wCounter + 1 }
          pattern wref beh priority

/-- `removeWildcardIndex` (lines 382-415).  The filtered result is a
*fresh* array object (`wildcardData.handlers = ...filter(...)`), so an
in-flight `for...of` over the old array is unaffected. -/
def removeWildcardIndex (s : BusState) (pattern : String) (sel : OffArg) :
    BusState :=
  match alGet s.wildcardEvents pattern with
  | none => s
  | some wref =>
    match alGet s.wHeap wref with
    | none => s
    | some wd =>
      let arr := (alGet s.arrHeap wd.handlersRef).getD []
      let newArr :=
        match sel with
        | OffArg.all => []
        | OffArg.byId n => arr.filter (fun h => jsNeq h.id n)
        | OffArg.byFn f => arr.filter (fun h => h.fnId ≠ f)
      let aref := s.arrCounter
      let s1 :=
        { s with
            arrHeap := s.arrHeap ++ [(aref, newArr)]
          , arrCounter := s.arrCounter + 1
          , wHeap := alSet s.wHeap wref { wd with handlersRef := aref } }
      let s2 :=
        if newArr.length = 0 then
          { s1 with
              wildcardEvents := alDel s1.wildcardEvents pattern
            , regexCache := s1.regexCache.filter (fun p => p ≠ pattern) }
        else s1
      clearRelatedMatchCache s2 pattern

/-- `on` (lines 521-580).  The validations on the argument *types* are
enforced by the Lean types; `!event.trim()` throws before any mutation.
The inner `let handlerId` (line 548) shadows the outer counter, so on
the non-wildcard path `const id = ++handlerId` yields `NaN`; and
`const idToRemove = id || handlerId` (line 576) reads `id`, which is not
in scope there, so every call that reaches line 576 throws a
`ReferenceError` — after the registration has already been stored. -/
def onModel (cfg : Config) (s : BusState) (event : String)
    (beh : Behavior) (prio : Option Int) :
    BusState × Except JsErr (String × JsNum) :=
  if jsBlank event then (s, Except.error JsErr.validationError)
  else
    let priority : Int :=
      match prio with
      | some p => clampPriority p
      | none => cfg.defaultPriority
    if hasWildcard event then
      match addWildcardIndex cfg s event beh priority with
      | (s1, Except.error e) => (s1, Except.error e)
      | (s1, Except.ok _) => (s1, Except.error JsErr.referenceError)
    else
      let s1 :=
        if (alGet s.events event).isSome then s
        else { s with events := alSet s.events event [] }
      let rcd : HandlerRecord :=
        { fnId := s1.fnCounter, beh := beh, priority := priority
        , id := JsNum.nan }
      let s2 :=
        { s1 with
            fnCounter := s1.fnCounter + 1
          , events := alSet s1.events event
              (sortDesc (((alGet s1.events event).getD []) ++ [rcd])) }
      (s2, Except.error JsErr.referenceError)

/-- `off` (lines 611-662). -/
def offModel (s : BusState) (event : String) (sel : OffArg) : BusState :=
  if hasWildcard event then removeWildcardIndex s event sel
  else
    match alGet s.events event with
    | none => s
    | some hs =>
      match sel with
      | OffArg.all => { s with events := alDel s.events event }
      | OffArg.byId n =>
        let filtered := hs.filter (fun h => jsNeq h.id n)
        let s1 := { s with events := alSet s.events event filtered }
        if filtered.length = 0 then
          { s1 with events := alDel s1.events event }
        else s1
      | OffArg.byFn f =>
        let filtered := hs.filter (fun h => h.fnId ≠ f)
        let s1 := { s with events := alSet s.events event filtered }
        if filtered.length = 0 then
          { s1 with events := alDel s1.events event }
        else s1

/-- `once` (lines 588-604): register the `onceHandler` wrapper via
`on`.  (`on` itself then throws the line-576 `ReferenceError`, but the
registration survives.) -/
def onceModel (cfg : Config) (s : BusState) (event : String)
    (label : Nat) (inner : List HAction) :
    BusState × Except JsErr (String × JsNum) :=
  onModel cfg s event (Behavior.onceWrap label event inner) none

/-!
## Match lookup
-/

/-- `findMatchingWildcards` (lines 447-492).  A cache hit refreshes the
timestamp and returns the cached object references with *no* TTL check;
a miss scans `wildcardEvents` in insertion order with the cheap
literal-head rejection, caches, and occasionally checks the size cap. -/
def findMatchingWildcards (now : Nat) (s : BusState) (event : String) :
    BusState × List Nat :=
  let key := event ++ ":match"
  match alGet s.matchCache key with
  | some entry =>
    ({ s with
        matchCache := alSet s.matchCache key { entry with timestamp := now }
      , cacheHitCount := s.cacheHitCount + 1 }, entry.hits)
  | none =>
    let s1 := { s with cacheMissCount := s.cacheMissCount + 1 }
    let found := s1.wildcardEvents.foldl (fun acc kv =>
      match alGet s1.wHeap kv.2 with
      | none => acc
      | some wd =>
        if wd.pfx != "" && !(jsStartsWith kv.1 "*")
            && !(jsStartsWith event wd.pfx) then acc
        else if wildMatch wd.regexSrc event then acc ++ [kv.2]
        else acc) []
    let s2 : BusState :=
      { s1 with matchCache :=
          (alSet s1.matchCache key { hits := found, timestamp := now }) }
    let s3 :=
      if s2.matchCache.length % 50 = 0 then checkCacheSize s2 else s2
    (s3, found)

/-!
## Handler execution
-/

def pushTrace (s : BusState) (label : Nat) (args : List String) :
    BusState :=
  { s with trace := s.trace ++ [(label, args)] }

def groupFlag (s : BusState) (g : Nat) : Bool :=
  (alGet s.groupFlags g).getD false

/-- `unsubscribeAll` (lines 921-936): run the collected per-name
unsubscribe capabilities, then set the group's flag and clear the list. -/
def unsubAll (s : BusState) (g : Nat) : BusState :=
  if groupFlag s g then s
  else
    let subs := (alGet s.groupUnsubs g).getD []
    let s1 := subs.foldl
      (fun st p => offModel st p.1 (OffArg.byId p.2)) s
    { s1 with
        groupFlags := alSet s1.groupFlags g true
      , groupUnsubs := alSet s1.groupUnsubs g [] }

/-- Run a user handler's body.  Returns the new state and whether the
body threw (a `subscribe` that raises inside `on` propagates out of the
handler, exactly as an uncaught exception in JS). -/
def runActs (cfg : Config) : BusState → List HAction → BusState × Bool
  | s, [] => (s, false)
  | s, HAction.throwErr :: _ => (s, true)
  | s, HAction.subscribe name label inner prio :: rest =>
    match onModel cfg s name (Behavior.acts label inner) prio with
    | (s1, Except.error _) => (s1, true)
    | (s1, Except.ok _) => runActs cfg s1 rest
  | s, HAction.offEvt name sel :: rest =>
    runActs cfg (offModel s name sel) rest

/-- Invoke one stored handler with `args`.  Returns whether the call
threw (to be caught by `emit`'s per-invocation `try`). -/
def runBehavior (cfg : Config) (s : BusState) (rcd : HandlerRecord)
    (args : List String) : BusState × Bool :=
  match rcd.beh with
  | Behavior.acts label l =>
    runActs cfg (pushTrace s label args) l
  | Behavior.onceWrap label ev inner =>
    -- onceHandler (lines 599-602): run the user handler, then
    -- `self.off(event, onceHandler)`; no try/finally, so a throw skips
    -- the self-unsubscription.
    let r := runActs cfg (pushTrace s label args) inner
    if r.2 then (r.1, true)
    else (offModel r.1 ev (OffArg.byFn rcd.fnId), false)
  | Behavior.manyWrap label g evName inclEv isOnce inner =>
    -- adaptedHandler (lines 942-966): bail out when the group is
    -- already unsubscribed; otherwise run the user handler, swallowing
    -- its errors, and on a `once` group unsubscribe everything.
    if groupFlag s g then (s, false)
    else
      let callArgs := if inclEv then evName :: args else args
      let r := runActs cfg (pushTrace s label callArgs) inner
      (if isOnce then unsubAll r.1 g else r.1, false)

/-!
## Emit
-/

/-- Step 1-2 of `emit` (lines 672-677): bump the emit counter and run
the TTL sweep on every 100th call.  (The debug logging, monitoring and
breakpoint blocks, lines 679-748, have no effect on the modelled state
under default options.) -/
def emitStage1 (now : Nat) (s : BusState) : BusState :=
  let s1 := { s with emitCount := s.emitCount + 1 }
  if s1.emitCount % 100 = 0 then cleanupExpiredCache now s1 else s1

/-- The exact-match pass (lines 750-769): iterate a snapshot copy
(`[...handlersArray]`), each invocation individually guarded. -/
def exactPass (cfg : Config) (s : BusState)
    (snap : List HandlerRecord) (event : String) (args : List String) :
    BusState :=
  match snap with
  | [] => s
  | rcd :: rest =>
    let callArgs := if cfg.unifyParams then event :: args else args
    let r := runBehavior cfg s rcd callArgs
    exactPass cfg r.1 rest event args

/-- The reverse lookup `Array.from(wildcardEvents.keys()).find(key =>
wildcardEvents.get(key) === wildcardData)` (lines 782-784), recovering
the pattern for a `wildcardData` object, here identified by the handler
array it currently points at; `''` when the object is no longer in the
map. -/
def patternOfAref (s : BusState) (aref : Nat) : String :=
  ((s.wildcardEvents.find? (fun kv =>
      match alGet s.wHeap kv.2 with
      | some wd => wd.handlersRef == aref
      | none => false)).map (fun kv => kv.1)).getD ""

/-- One pattern's dispatch loop (lines 779-796): `for...of` over the
*live* handler array — the array object is fixed at loop entry
(`aref`), but its contents are re-read every step, so in-place
push/sort during the pass is visible.  `fuel` bounds the iteration (in
JS a handler that keeps growing the array would loop forever). -/
def liveLoop (cfg : Config) (event : String) (args : List String)
    (aref : Nat) : Nat → Nat → BusState → BusState
  | 0, _, s => s
  | Nat.succ fuel, i, s =>
    let arr := (alGet s.arrHeap aref).getD []
    if h : i < arr.length then
      let rcd := arr.get ⟨i, h⟩
      -- Recover the pattern by searching wildcardEvents for the
      -- wildcardData object (lines 782-784); the model searches for
      -- the array reference, which identifies the same object state.
      let params := extractWildcardParams (patternOfAref s aref) event
      let r := runBehavior cfg s rcd (event :: params ++ args)
      liveLoop cfg event args aref fuel (i + 1) r.1
    else s

/-- The wildcard pass body (lines 777-797): for each matched
`wildcardData` object, loop over its (live) handler array. -/
def wildPatterns (cfg : Config) (fuel : Nat) (event : String)
    (args : List String) : BusState → List Nat → BusState
  | s, [] => s
  | s, wref :: rest =>
    let s1 :=
      match alGet s.wHeap wref with
      | none => s
      | some wd => liveLoop cfg event args wd.handlersRef fuel 0 s
    wildPatterns cfg fuel event args s1 rest

/-- The exact-match phase of `emit`: snapshot and dispatch. -/
def emitExact (cfg : Config) (s : BusState) (event : String)
    (args : List String) : BusState :=
  exactPass cfg s ((alGet s.events event).getD []) event args

/-- The wildcard phase of `emit` (lines 771-798). -/
def emitWild (cfg : Config) (fuel now : Nat) (s : BusState)
    (event : String) (args : List String) : BusState :=
  let r := findMatchingWildcards now s event
  let s1 :=
    if r.2.length > 0 then
      { r.1 with wildcardMatchCount := r.1.wildcardMatchCount + r.2.length }
    else r.1
  wildPatterns cfg fuel event args s1 r.2

/-- `emit` (lines 669-799).  `emit` never raises: every handler
invocation, breakpoint callback and regex test is wrapped in its own
`try`, so the function is total by construction. -/
def emitModel (cfg : Config) (fuel now : Nat) (s : BusState)
    (event : String) (args : List String) : BusState :=
  emitWild cfg fuel now (emitExact cfg (emitStage1 now s) event args)
    event args

/-!
## Multi-event subscription
-/

/-- The registration loop of `onMany` (lines 938-977): register the
adapted handler name by name, collecting unsubscribe capabilities;
stop at the first throw. -/
def onManyLoop (cfg : Config) (g : Nat) (label : Nat)
    (inner : List HAction) (inclEv isOnce : Bool) :
    List String → BusState → BusState × Option JsErr
  | [], s => (s, none)
  | n :: rest, s =>
    match onModel cfg s n
        (Behavior.manyWrap label g n inclEv isOnce inner) none with
    | (s1, Except.error e) => (s1, some e)
    | (s1, Except.ok cap) =>
      let s2 :=
        { s1 with groupUnsubs := (alSet s1.groupUnsubs g
            (((alGet s1.groupUnsubs g).getD []) ++ [cap])) }
      onManyLoop cfg g label inner inclEv isOnce rest s2

/-- `onMany` (lines 880-980).  On a registration error the collected
subscriptions are rolled back via `unsubscribeAll` (which also sets the
group flag) and a wrapped error is rethrown. -/
def onManyModel (cfg : Config) (s : BusState) (names : List String)
    (label : Nat) (inner : List HAction) (inclEv isOnce : Bool) :
    BusState × Except JsErr (Option Nat) :=
  if names.isEmpty then (s, Except.ok none)
  else
    let valid := names.filter (fun n => !jsBlank n)
    if valid.isEmpty then (s, Except.ok none)
    else
      let g := s.groupCounter
      let s1 :=
        { s with
            groupCounter := g + 1
          , groupFlags := alSet s.groupFlags g false
          , groupUnsubs := alSet s.groupUnsubs g [] }
      match onManyLoop cfg g label inner inclEv isOnce valid s1 with
      | (s2, none) => (s2, Except.ok (some g))
      | (s2, some _) => (unsubAll s2 g, Except.error JsErr.wrappedError)

/-- `onceMany` (lines 990-995): `onMany` with `once` forced true. -/
def onceManyModel (cfg : Config) (s : BusState) (names : List String)
    (label : Nat) (inner : List HAction) : BusState × Except JsErr (Option Nat) :=
  onManyModel cfg s names label inner true true

/-!
## count
-/

/-- `count` (lines 824-849).  The handler containers are `Array`s, but
`count` reads `.size` on them (lines 833, 838, 844), which on an array
is `undefined`; `0 + undefined` and `undefined + undefined` are `NaN`. -/
def countModel (now : Nat) (s : BusState) (event : String) :
    BusState × JsVal :=
  if hasWildcard event then
    match alGet s.wildcardEvents event with
    | some _ => (s, JsVal.undef)
    | none => (s, JsVal.num 0)
  else
    let c0 :=
      if (alGet s.events event).isSome then JsVal.undef else JsVal.num 0
    let r := findMatchingWildcards now s event
    (r.1, r.2.foldl (fun c _ => jsAdd c JsVal.undef) c0)

/-!
## Statement vocabulary

Definitions used only to *state* properties of the model above.
-/

/-- The arguments an exact-match handler receives (lines 757-762). -/
def exactCallArgs (cfg : Config) (event : String) (args : List String) :
    List String :=
  if cfg.unifyParams then event :: args else args

/-- The trace entries an exact-pass snapshot produces when every
snapshot handler is a plain user handler. -/
def exactEntries (cfg : Config) (event : String) (args : List String)
    (snap : List HandlerRecord) : List (Nat × List String) :=
  snap.map (fun r => (behLabel r.beh, exactCallArgs cfg event args))

/-- The trace entries one matched pattern's handler array produces. -/
def wildEntriesFor (s : BusState) (event : String) (args : List String)
    (aref : Nat) : List (Nat × List String) :=
  ((alGet s.arrHeap aref).getD []).map (fun r =>
    (behLabel r.beh,
      event :: extractWildcardParams (patternOfAref s aref) event ++ args))

/-- The trace entries of the whole wildcard pass, per matched object. -/
def wildEntryList (s : BusState) (event : String) (args : List String) :
    List Nat → List (Nat × List String)
  | [] => []
  | wref :: rest =>
    (match alGet s.wHeap wref with
     | none => []
     | some wd => wildEntriesFor s event args wd.handlersRef)
      ++ wildEntryList s event args rest

/-- The list of matched `wildcardData` references a given `emit` call
dispatches against (the result of its `findMatchingWildcards` query). -/
def emitMatches (cfg : Config) (now : Nat) (s : BusState)
    (event : String) (args : List String) : List Nat :=
  (findMatchingWildcards now (emitExact cfg (emitStage1 now s) event args)
    event).2

/-- An action that neither subscribes nor unsubscribes (it may throw). -/
def actPure : HAction → Bool
  | HAction.throwErr => true
  | _ => false

/-- A plain user handler (not a `once`/`onMany` wrapper). -/
def behIsActs : Behavior → Bool
  | Behavior.acts _ _ => true
  | _ => false

/-- A plain user handler that performs no mutation (it may throw). -/
def recPure (r : HandlerRecord) : Bool :=
  match r.beh with
  | Behavior.acts _ l => l.all actPure
  | _ => false

/-- Every registered handler (exact or wildcard) is plain and
non-mutating. -/
def statePure (s : BusState) : Bool :=
  s.events.all (fun kv => kv.2.all recPure) &&
    s.arrHeap.all (fun kv => kv.2.all recPure)

/-- Every handler array has at most `fuel` elements, so `fuel` suffices
for every live loop when no handler grows an array. -/
def arraysBounded (s : BusState) (fuel : Nat) : Bool :=
  s.arrHeap.all (fun kv => decide (kv.2.length ≤ fuel))

/-- `{ s with trace := s.trace ++ t }`, the only effect a pass of pure
handlers has. -/
def addTrace (s : BusState) (t : List (Nat × List String)) : BusState :=
  { s with trace := s.trace ++ t }

/-- The record `on` stores for the `k`-th plain registration (label,
priority) on a non-wildcard name when the requested priority is already
in `[0,100]` apart from clamping: closure identity `k`, id `NaN`. -/
def mkRec (k : Nat) (lp : Nat × Int) : HandlerRecord :=
  { fnId := k, beh := Behavior.acts lp.1 []
  , priority := clampPriority lp.2, id := JsNum.nan }

/-- The record `addWildcardIndex` stores for the `k`-th plain
registration on a pattern: fresh id `k+1` from the outer counter, and
the `Number(priority) || default` remapping applied. -/
def mkRecW (cfg : Config) (k : Nat) (lp : Nat × Int) : HandlerRecord :=
  { fnId := k, beh := Behavior.acts lp.1 []
  , priority := jsOrDefault (clampPriority lp.2) cfg.defaultPriority
  , id := JsNum.int (k + 1) }

/-- `push` followed by the stable descending sort (lines 562-569). -/
def jsPush (st : List HandlerRecord) (x : HandlerRecord) :
    List HandlerRecord :=
  sortDesc (st ++ [x])

/-- The invariant order of a stored handler list: descending priority,
ties broken by ascending closure identity (= registration order). -/
def hrel (a b : HandlerRecord) : Prop :=
  a.priority > b.priority ∨ (a.priority = b.priority ∧ a.fnId < b.fnId)

/-- A sequence of `on(name, handler_k, priority_k)` registrations of
plain handlers, keeping the state each call leaves behind (each call
also throws the line-576 `ReferenceError`, which the caller sees but
which does not undo the registration). -/
def regFold (cfg : Config) (name : String) (regs : List (Nat × Int))
    (s : BusState) : BusState :=
  regs.foldl
    (fun st r => (onModel cfg st name (Behavior.acts r.1 []) (some r.2)).1)
    s

/-- The exact-registry records of the processed registrations, with
closure identities allocated from `k` on. -/
def mkRecs : Nat → List (Nat × Int) → List HandlerRecord
  | _, [] => []
  | k, lp :: rest => mkRec k lp :: mkRecs (k + 1) rest

/-- The pattern-index records of the processed registrations. -/
def mkRecsW (cfg : Config) : Nat → List (Nat × Int) → List HandlerRecord
  | _, [] => []
  | k, lp :: rest => mkRecW cfg k lp :: mkRecsW cfg (k + 1) rest

/-- The bus state after `n ≥ 1` plain registrations on one non-wildcard
name, with `st` the stored handler list. -/
def exactRegState (name : String) (st : List HandlerRecord) (n : Nat) :
    BusState :=
  { initState with events := [(name, st)], fnCounter := n }

/-- The bus state after `n ≥ 1` plain registrations on one pattern. -/
def wildRegState (name : String) (st : List HandlerRecord) (n : Nat) :
    BusState :=
  { initState with
      wildcardEvents := [(name, 0)]
    , wHeap := [(0, { regexSrc := name, pfx := splitHead '*' name
                    , handlersRef := 0 })]
    , arrHeap := [(0, st)]
    , handlerId := n, fnCounter := n, wCounter := 1, arrCounter := 1
    , regexCache := [name] }

/-- Repeated emissions of the same event, one per clock value. -/
def emitSeq (cfg : Config) (fuel : Nat) (event : String)
    (args : List String) (nows : List Nat) (s : BusState) : BusState :=
  nows.foldl (fun st nw => emitModel cfg fuel nw st event args) s

/-!
## Concrete scenarios used by the claims
-/

/-- Two plain handlers on `"e"`: the first throws, the second does
nothing. -/
def busTwoHandlers : BusState :=
  (onModel defaultConfig
    ((onModel defaultConfig initState "e"
        (Behavior.acts 1 [HAction.throwErr]) none).1)
    "e" (Behavior.acts 2 []) none).1

/-- A handler on `"a.*"` that subscribes a second handler on the same
pattern when invoked. -/
def busSelfSub : BusState :=
  (onModel defaultConfig initState "a.*"
    (Behavior.acts 1 [HAction.subscribe "a.*" 2 [] (some 50)]) (some 50)).1

/-- Two wildcard handlers on `"u.*"`: label 1 registered with priority
1, then label 2 registered with priority 0. -/
def busPrioZero : BusState :=
  (onModel defaultConfig
    ((onModel defaultConfig initState "u.*"
        (Behavior.acts 1 []) (some 1)).1)
    "u.*" (Behavior.acts 2 []) (some 0)).1

/-- A `once` registration on `"e"` whose handler throws. -/
def busOnceThrow : BusState :=
  (onceModel defaultConfig initState "e" 7 [HAction.throwErr]).1

/-- One wildcard handler on `"a.*"`, then `emit("a.x")` at time 0,
which caches the match result with timestamp 0. -/
def busCached : BusState :=
  emitModel defaultConfig 10 0
    ((onModel defaultConfig initState "a.*" (Behavior.acts 1 []) none).1)
    "a.x" []

/-- `onceMany(["p.success","p.fail"], f)` on a fresh bus. -/
def busOnceMany : BusState × Except JsErr (Option Nat) :=
  onceManyModel defaultConfig initState ["p.success", "p.fail"] 9 []

/-- One wildcard handler on `"user.*"`. -/
def busUserStar : BusState :=
  (onModel defaultConfig initState "user.*" (Behavior.acts 3 []) none).1

/-- The record `once(ev, handler)` leaves behind on a fresh bus: the
`onceHandler` wrapper, closure identity 0, default priority, `NaN` id. -/
def onceRec (L : Nat) (ev : String) : HandlerRecord :=
  { fnId := 0, beh := Behavior.onceWrap L ev [], priority := 50
  , id := JsNum.nan }

/-- The bus after `once(ev, handler)` on a fresh engine. -/
def onceBus (ev : String) (L : Nat) : BusState :=
  { initState with events := [(ev, [onceRec L ev])], fnCounter := 1 }

/-- The record `once(pat, handler)` leaves in a wildcard pattern's
handler array on a fresh engine: the `onceHandler` wrapper, closure
identity 0, default priority (via `Number(priority) || DEFAULT`), and
the fresh id 1 drawn from the *outer* counter (the wildcard path does
not hit the shadowed-counter bug). -/
def onceWRec (L : Nat) (pat : String) : HandlerRecord :=
  { fnId := 0, beh := Behavior.onceWrap L pat [], priority := 50
  , id := JsNum.int 1 }

/-- The bus after `once(pat, handler)` on a fresh engine, for a
wildcard pattern `pat`. -/
def wildOnceBus (pat : String) (L : Nat) : BusState :=
  { initState with
      wildcardEvents := [(pat, 0)]
    , wHeap := [(0, { regexSrc := pat, pfx := splitHead '*' pat
                    , handlersRef := 0 })]
    , arrHeap := [(0, [onceWRec L pat])]
    , handlerId := 1, fnCounter := 1, wCounter := 1, arrCounter := 1
    , regexCache := [pat] }

/-- The state halfway through the first matching `emit` on
`wildOnceBus`: counters bumped, the match cached, and the user handler
body just finished — the wrapper is about to run
`self.off(pat, onceHandler)`. -/
def wildOnceMid (pat ev : String) (L now : Nat) (args : List String) :
    BusState :=
  { wildOnceBus pat L with
      emitCount := 1
    , cacheMissCount := 1
    , matchCache := [(ev ++ ":match", { hits := [0], timestamp := now })]
    , wildcardMatchCount := 1
    , trace := [(L, ev :: extractWildcardParams pat ev ++ args)] }

/-- The state after the first matching `emit` on `wildOnceBus`
completes: the wrapper removed itself via `removeWildcardIndex` — the
pattern entry, its regex cache and the related match cache are gone,
and the `wildcardData` points at a fresh empty handler array. -/
def wildOnceDone (pat ev : String) (L now : Nat) (args : List String) :
    BusState :=
  { wildOnceMid pat ev L now args with
      wildcardEvents := []
    , wHeap := [(0, { regexSrc := pat, pfx := splitHead '*' pat
                    , handlersRef := 1 })]
    , arrHeap := [(0, [onceWRec L pat]), (1, [])]
    , arrCounter := 2
    , regexCache := []
    , matchCache := [] }

/-- One plain handler on `"login"`. -/
def busLogin : BusState :=
  (onModel defaultConfig initState "login" (Behavior.acts 1 []) (some 50)).1

/-- Two plain handlers on `"e"`: the first, when invoked, unsubscribes
every handler of `"e"`; the second does nothing. -/
def busMutatingExact : BusState :=
  (onModel defaultConfig
    ((onModel defaultConfig initState "e"
        (Behavior.acts 1 [HAction.offEvt "e" OffArg.all]) none).1)
    "e" (Behavior.acts 2 []) none).1

/-- An exact handler on `"user.login"` and a wildcard handler on
`"user.*"`. -/
def busMixed : BusState :=
  (onModel defaultConfig
    ((onModel defaultConfig initState "user.login"
        (Behavior.acts 1 []) none).1)
    "user.*" (Behavior.acts 2 []) none).1

/-!
## Basic state algebra
-/

theorem addTrace_nil (s : BusState) : addTrace s [] = s := by
  simp [addTrace]

theorem addTrace_addTrace (s : BusState) (t u : List (Nat × List String)) :
    addTrace (addTrace s t) u = addTrace s (t ++ u) := by
  simp [addTrace]

theorem pushTrace_eq_addTrace (s : BusState) (l : Nat) (a : List String) :
    pushTrace s l a = addTrace s [(l, a)] := rfl

/-- The registry-relevant components `cleanupExpiredCache` leaves
untouched. -/
theorem cleanupExpiredCache_pre (now : Nat) (s : BusState) :
    (cleanupExpiredCache now s).trace = s.trace ∧
    (cleanupExpiredCache now s).events = s.events ∧
    (cleanupExpiredCache now s).wildcardEvents = s.wildcardEvents ∧
    (cleanupExpiredCache now s).wHeap = s.wHeap ∧
    (cleanupExpiredCache now s).arrHeap = s.arrHeap := by
  simp [cleanupExpiredCache]

theorem checkCacheSize_pre (s : BusState) :
    (checkCacheSize s).trace = s.trace ∧
    (checkCacheSize s).events = s.events ∧
    (checkCacheSize s).wildcardEvents = s.wildcardEvents ∧
    (checkCacheSize s).wHeap = s.wHeap ∧
    (checkCacheSize s).arrHeap = s.arrHeap := by
  unfold checkCacheSize
  split <;> simp

theorem emitStage1_pre (now : Nat) (s : BusState) :
    (emitStage1 now s).trace = s.trace ∧
    (emitStage1 now s).events = s.events ∧
    (emitStage1 now s).wildcardEvents = s.wildcardEvents ∧
    (emitStage1 now s).wHeap = s.wHeap ∧
    (emitStage1 now s).arrHeap = s.arrHeap := by
  unfold emitStage1
  dsimp only
  split
  · exact cleanupExpiredCache_pre now _
  · simp

theorem findMatchingWildcards_pre (now : Nat) (s : BusState)
    (event : String) :
    ((findMatchingWildcards now s event).1).trace = s.trace ∧
    ((findMatchingWildcards now s event).1).events = s.events ∧
    ((findMatchingWildcards now s event).1).wildcardEvents =
      s.wildcardEvents ∧
    ((findMatchingWildcards now s event).1).wHeap = s.wHeap ∧
    ((findMatchingWildcards now s event).1).arrHeap = s.arrHeap := by
  unfold findMatchingWildcards
  dsimp only
  split
  · simp
  · split
    · exact checkCacheSize_pre _
    · simp

/-!
## Pure-handler execution
-/

theorem runActs_pure (cfg : Config) (s : BusState) (l : List HAction)
    (h : l.all actPure = true) : (runActs cfg s l).1 = s := by
  induction l with
  | nil => rfl
  | cons a rest ih =>
    cases a with
    | throwErr => rfl
    | subscribe n lb inner p => simp [actPure] at h
    | offEvt n sel => simp [actPure] at h

theorem runBehavior_pure (cfg : Config) (s : BusState)
    (r : HandlerRecord) (args : List String) (h : recPure r = true) :
    (runBehavior cfg s r args).1 = addTrace s [(behLabel r.beh, args)] := by
  unfold recPure at h
  unfold runBehavior
  cases hb : r.beh with
  | acts lb l =>
    rw [hb] at h
    rw [runActs_pure cfg _ l h]
    rfl
  | onceWrap lb ev inner => rw [hb] at h; simp at h
  | manyWrap lb g ev ie io inner => rw [hb] at h; simp at h

theorem exactPass_pure (cfg : Config) (s : BusState)
    (snap : List HandlerRecord) (ev : String) (args : List String)
    (h : snap.all recPure = true) :
    exactPass cfg s snap ev args =
      addTrace s (exactEntries cfg ev args snap) := by
  induction snap generalizing s with
  | nil => simp [exactPass, exactEntries, addTrace_nil]
  | cons r rest ih =>
    simp only [List.all_cons, Bool.and_eq_true] at h
    unfold exactPass
    dsimp only
    rw [runBehavior_pure cfg s r _ h.1, ih _ h.2, addTrace_addTrace]
    rfl

theorem statePure_events (s : BusState) (hp : statePure s = true)
    (ev : String) : ((alGet s.events ev).getD []).all recPure = true := by
  unfold statePure at hp
  simp only [Bool.and_eq_true, List.all_eq_true] at hp
  cases hg : alGet s.events ev with
  | none => rfl
  | some l =>
    unfold alGet at hg
    simp only [Option.map_eq_some'] at hg
    obtain ⟨kv, hfind, hkv⟩ := hg
    have hmem := List.mem_of_find?_eq_some hfind
    have := hp.1 kv hmem
    simp only [Option.getD_some]
    rw [← hkv]
    exact List.all_eq_true.mpr this

theorem statePure_arr (s : BusState) (hp : statePure s = true)
    (aref : Nat) : ((alGet s.arrHeap aref).getD []).all recPure = true := by
  unfold statePure at hp
  simp only [Bool.and_eq_true, List.all_eq_true] at hp
  cases hg : alGet s.arrHeap aref with
  | none => rfl
  | some l =>
    unfold alGet at hg
    simp only [Option.map_eq_some'] at hg
    obtain ⟨kv, hfind, hkv⟩ := hg
    have hmem := List.mem_of_find?_eq_some hfind
    have := hp.2 kv hmem
    simp only [Option.getD_some]
    rw [← hkv]
    exact List.all_eq_true.mpr this

theorem arraysBounded_arr (s : BusState) (fuel : Nat)
    (hb : arraysBounded s fuel = true) (aref : Nat) :
    ((alGet s.arrHeap aref).getD []).length ≤ fuel := by
  unfold arraysBounded at hb
  simp only [List.all_eq_true, decide_eq_true_eq] at hb
  cases hg : alGet s.arrHeap aref with
  | none => simp
  | some l =>
    unfold alGet at hg
    simp only [Option.map_eq_some'] at hg
    obtain ⟨kv, hfind, hkv⟩ := hg
    have hmem := List.mem_of_find?_eq_some hfind
    have := hb kv hmem
    simp only [Option.getD_some]
    rw [← hkv]
    exact this

theorem addTrace_events (s : BusState) (t : List (Nat × List String)) :
    (addTrace s t).events = s.events := rfl

theorem addTrace_arrHeap (s : BusState) (t : List (Nat × List String)) :
    (addTrace s t).arrHeap = s.arrHeap := rfl

theorem addTrace_wHeap (s : BusState) (t : List (Nat × List String)) :
    (addTrace s t).wHeap = s.wHeap := rfl

theorem addTrace_wildcardEvents (s : BusState)
    (t : List (Nat × List String)) :
    (addTrace s t).wildcardEvents = s.wildcardEvents := rfl

theorem addTrace_trace (s : BusState) (t : List (Nat × List String)) :
    (addTrace s t).trace = s.trace ++ t := rfl

theorem statePure_addTrace (s : BusState) (t : List (Nat × List String)) :
    statePure (addTrace s t) = statePure s := rfl

theorem arraysBounded_addTrace (s : BusState)
    (t : List (Nat × List String)) (fuel : Nat) :
    arraysBounded (addTrace s t) fuel = arraysBounded s fuel := rfl

theorem patternOfAref_congr (s' s : BusState) (aref : Nat)
    (hw : s'.wildcardEvents = s.wildcardEvents)
    (hh : s'.wHeap = s.wHeap) :
    patternOfAref s' aref = patternOfAref s aref := by
  unfold patternOfAref
  rw [hw, hh]

theorem wildEntriesFor_congr (s' s : BusState) (ev : String)
    (args : List String) (aref : Nat)
    (hw : s'.wildcardEvents = s.wildcardEvents)
    (hh : s'.wHeap = s.wHeap) (ha : s'.arrHeap = s.arrHeap) :
    wildEntriesFor s' ev args aref = wildEntriesFor s ev args aref := by
  unfold wildEntriesFor
  rw [ha, patternOfAref_congr s' s aref hw hh]

theorem wildEntryList_congr (s' s : BusState) (ev : String)
    (args : List String) (refs : List Nat)
    (hw : s'.wildcardEvents = s.wildcardEvents)
    (hh : s'.wHeap = s.wHeap) (ha : s'.arrHeap = s.arrHeap) :
    wildEntryList s' ev args refs = wildEntryList s ev args refs := by
  induction refs with
  | nil => rfl
  | cons wref rest ih =>
    unfold wildEntryList
    rw [ih, hh]
    cases alGet s.wHeap wref with
    | none => rfl
    | some wd =>
      simp only
      rw [wildEntriesFor_congr s' s ev args wd.handlersRef hw hh ha]

theorem wildEntryList_nil (s : BusState) (ev : String)
    (args : List String) : wildEntryList s ev args [] = [] := rfl

theorem wildEntryList_cons (s : BusState) (ev : String)
    (args : List String) (wref : Nat) (rest : List Nat) :
    wildEntryList s ev args (wref :: rest) =
      (match alGet s.wHeap wref with
       | none => []
       | some wd => wildEntriesFor s ev args wd.handlersRef)
        ++ wildEntryList s ev args rest := rfl

theorem liveLoop_pure (cfg : Config) (ev : String) (args : List String)
    (aref : Nat) (fuel i : Nat) (s : BusState)
    (hpure : ((alGet s.arrHeap aref).getD []).all recPure = true)
    (hfuel : ((alGet s.arrHeap aref).getD []).length ≤ i + fuel) :
    liveLoop cfg ev args aref fuel i s =
      addTrace s ((((alGet s.arrHeap aref).getD []).map (fun r =>
        (behLabel r.beh,
          ev :: extractWildcardParams (patternOfAref s aref) ev ++ args))).drop
            i) := by
  induction fuel generalizing i s with
  | zero =>
    have hle : (((alGet s.arrHeap aref).getD []).map (fun r =>
        (behLabel r.beh,
          ev :: extractWildcardParams (patternOfAref s aref) ev ++ args))).length
        ≤ i := by
      simp only [List.length_map]; omega
    rw [List.drop_eq_nil_of_le hle]
    simp [liveLoop, addTrace_nil]
  | succ fuel ih =>
    unfold liveLoop
    dsimp only
    split
    · next h =>
      have hpr : recPure (((alGet s.arrHeap aref).getD []).get ⟨i, h⟩) = true :=
        List.all_eq_true.mp hpure _ (List.get_mem _ _ _)
      rw [runBehavior_pure cfg s _ _ hpr]
      rw [ih (i + 1) _ (by simpa only [addTrace_arrHeap] using hpure)
        (by simp only [addTrace_arrHeap]; omega)]
      simp only [addTrace_arrHeap, addTrace_wHeap, addTrace_wildcardEvents]
      have hpa : patternOfAref (addTrace s
          [(behLabel (((alGet s.arrHeap aref).getD []).get ⟨i, h⟩).beh,
            ev :: extractWildcardParams (patternOfAref s aref) ev ++ args)])
          aref = patternOfAref s aref := rfl
      rw [hpa, addTrace_addTrace]
      congr 1
      have h' : i < (((alGet s.arrHeap aref).getD []).map (fun r =>
          (behLabel r.beh,
            ev :: extractWildcardParams (patternOfAref s aref) ev ++ args))).length := by
        simp only [List.length_map]; omega
      rw [List.drop_eq_getElem_cons h']
      simp
    · next h =>
      have hle : (((alGet s.arrHeap aref).getD []).map (fun r =>
          (behLabel r.beh,
            ev :: extractWildcardParams (patternOfAref s aref) ev ++ args))).length
          ≤ i := by
        simp only [List.length_map]; omega
      rw [List.drop_eq_nil_of_le hle]
      simp [addTrace_nil]

theorem wildPatterns_pure (cfg : Config) (fuel : Nat) (ev : String)
    (args : List String) (refs : List Nat) (s : BusState)
    (hpure : statePure s = true)
    (hb : arraysBounded s fuel = true) :
    wildPatterns cfg fuel ev args s refs =
      addTrace s (wildEntryList s ev args refs) := by
  induction refs generalizing s with
  | nil => simp [wildPatterns, wildEntryList, addTrace_nil]
  | cons wref rest ih =>
    unfold wildPatterns
    dsimp only
    cases hw : alGet s.wHeap wref with
    | none =>
      rw [ih s hpure hb, wildEntryList_cons, hw]
      rfl
    | some wd =>
      dsimp only
      rw [liveLoop_pure cfg ev args wd.handlersRef fuel 0 s
        (statePure_arr s hpure wd.handlersRef)
        (by simpa using arraysBounded_arr s fuel hb wd.handlersRef)]
      rw [ih _ (by rw [statePure_addTrace]; exact hpure)
        (by rw [arraysBounded_addTrace]; exact hb)]
      rw [addTrace_addTrace, wildEntryList_cons, hw]
      simp only [List.drop_zero]
      rw [wildEntryList_congr (addTrace s _) s ev args rest rfl rfl rfl]
      rfl

theorem emitWild_pure (cfg : Config) (fuel now : Nat) (s : BusState)
    (ev : String) (args : List String)
    (hp : statePure s = true) (hb : arraysBounded s fuel = true) :
    (emitWild cfg fuel now s ev args).trace =
      s.trace ++
        wildEntryList s ev args (findMatchingWildcards now s ev).2 := by
  obtain ⟨hft, hfe, hfw, hfh, hfa⟩ := findMatchingWildcards_pre now s ev
  have hpF : statePure (findMatchingWildcards now s ev).1 = true := by
    unfold statePure at hp ⊢
    rw [hfe, hfa]
    exact hp
  have hbF : arraysBounded (findMatchingWildcards now s ev).1 fuel = true := by
    unfold arraysBounded at hb ⊢
    rw [hfa]
    exact hb
  unfold emitWild
  dsimp only
  split
  · rw [wildPatterns_pure cfg fuel ev args _ _ (by exact hpF) (by exact hbF)]
    rw [addTrace_trace]
    have hwl : wildEntryList
        { (findMatchingWildcards now s ev).1 with
          wildcardMatchCount :=
            (findMatchingWildcards now s ev).1.wildcardMatchCount +
              (findMatchingWildcards now s ev).2.length }
        ev args (findMatchingWildcards now s ev).2 =
        wildEntryList s ev args (findMatchingWildcards now s ev).2 :=
      wildEntryList_congr _ s ev args _
        (by rw [show ({ (findMatchingWildcards now s ev).1 with
            wildcardMatchCount := _ } : BusState).wildcardEvents =
              (findMatchingWildcards now s ev).1.wildcardEvents from rfl, hfw])
        (by rw [show ({ (findMatchingWildcards now s ev).1 with
            wildcardMatchCount := _ } : BusState).wHeap =
              (findMatchingWildcards now s ev).1.wHeap from rfl, hfh])
        (by rw [show ({ (findMatchingWildcards now s ev).1 with
            wildcardMatchCount := _ } : BusState).arrHeap =
              (findMatchingWildcards now s ev).1.arrHeap from rfl, hfa])
    rw [hwl]
    congr 1
  · rw [wildPatterns_pure cfg fuel ev args _ _ hpF hbF]
    rw [addTrace_trace, hft]
    rw [wildEntryList_congr _ s ev args _ hfw hfh hfa]

theorem emitExact_pure (cfg : Config) (s : BusState) (ev : String)
    (args : List String) (hp : statePure s = true) :
    emitExact cfg s ev args =
      addTrace s (exactEntries cfg ev args ((alGet s.events ev).getD [])) := by
  unfold emitExact
  exact exactPass_pure cfg s _ ev args (statePure_events s hp ev)

/-- Master dispatch lemma: when every registered handler is a plain,
non-mutating (possibly throwing) user handler and the fuel covers every
handler array, one `emit` appends to the trace exactly the exact-pass
entries followed by the wildcard-pass entries — every matching handler
runs, in order, exact pass first. -/
theorem emit_pure_trace (cfg : Config) (fuel now : Nat) (s : BusState)
    (ev : String) (args : List String)
    (hp : statePure s = true) (hb : arraysBounded s fuel = true) :
    (emitModel cfg fuel now s ev args).trace =
      s.trace ++ exactEntries cfg ev args ((alGet s.events ev).getD [])
        ++ wildEntryList s ev args (emitMatches cfg now s ev args) := by
  obtain ⟨h1t, h1e, h1w, h1h, h1a⟩ := emitStage1_pre now s
  have hp1 : statePure (emitStage1 now s) = true := by
    unfold statePure at hp ⊢
    rw [h1e, h1a]
    exact hp
  have hb1 : arraysBounded (emitStage1 now s) fuel = true := by
    unfold arraysBounded at hb ⊢
    rw [h1a]
    exact hb
  have hsE := emitExact_pure cfg (emitStage1 now s) ev args hp1
  have hpE : statePure (emitExact cfg (emitStage1 now s) ev args) = true := by
    rw [hsE, statePure_addTrace]
    exact hp1
  have hbE : arraysBounded (emitExact cfg (emitStage1 now s) ev args) fuel
      = true := by
    rw [hsE, arraysBounded_addTrace]
    exact hb1
  unfold emitModel
  rw [emitWild_pure cfg fuel now _ ev args hpE hbE]
  unfold emitMatches
  congr 1
  · rw [hsE, addTrace_trace, h1t, h1e]
  · exact wildEntryList_congr _ s ev args _
      (by rw [hsE, addTrace_wildcardEvents, h1w])
      (by rw [hsE, addTrace_wHeap, h1h])
      (by rw [hsE, addTrace_arrHeap, h1a])

/-!
## Trace discipline of the mutation operations

Registration and removal never touch the trace; an arbitrary handler
invocation only appends to it.
-/

theorem clearRelatedMatchCache_trace (s : BusState) (p : String) :
    (clearRelatedMatchCache s p).trace = s.trace := rfl

theorem awiPush_trace (cfg : Config) (s1 : BusState) (pattern : String)
    (wref : Nat) (beh : Behavior) (priority : Int) :
    ((awiPush cfg s1 pattern wref beh priority).1).trace = s1.trace := by
  unfold awiPush
  split <;> rfl

theorem addWildcardIndex_trace (cfg : Config) (s : BusState)
    (pattern : String) (beh : Behavior) (priority : Int) :
    ((addWildcardIndex cfg s pattern beh priority).1).trace = s.trace := by
  unfold addWildcardIndex
  split
  · rfl
  · split
    · exact awiPush_trace cfg s pattern _ beh priority
    · split
      · rfl
      · exact awiPush_trace cfg _ pattern _ beh priority

theorem removeWildcardIndex_trace (s : BusState) (pattern : String)
    (sel : OffArg) :
    (removeWildcardIndex s pattern sel).trace = s.trace := by
  unfold removeWildcardIndex
  dsimp only
  split
  · rfl
  · split
    · rfl
    · split <;> rfl

theorem onModel_trace (cfg : Config) (s : BusState) (event : String)
    (beh : Behavior) (prio : Option Int) :
    ((onModel cfg s event beh prio).1).trace = s.trace := by
  unfold onModel
  dsimp only
  split
  · rfl
  · split
    · generalize hA : addWildcardIndex cfg s event beh
        (match prio with
         | some p => clampPriority p
         | none => cfg.defaultPriority) = r
      have h1 : r.1.trace = s.trace := by
        rw [← hA]
        exact addWildcardIndex_trace cfg s event beh _
      obtain ⟨s1, res⟩ := r
      cases res
      · exact h1
      · exact h1
    · split <;> rfl

theorem offModel_trace (s : BusState) (event : String) (sel : OffArg) :
    (offModel s event sel).trace = s.trace := by
  unfold offModel
  split
  · exact removeWildcardIndex_trace s event sel
  · split
    · rfl
    · split
      · rfl
      · dsimp only
        split <;> rfl
      · dsimp only
        split <;> rfl

theorem unsubAll_trace (s : BusState) (g : Nat) :
    (unsubAll s g).trace = s.trace := by
  unfold unsubAll
  split
  · rfl
  · have hfold : ∀ (subs : List (String × JsNum)) (st : BusState),
        (subs.foldl (fun st p => offModel st p.1 (OffArg.byId p.2)) st).trace
          = st.trace := by
      intro subs
      induction subs with
      | nil => intro st; rfl
      | cons p rest ih =>
        intro st
        simp only [List.foldl_cons]
        rw [ih, offModel_trace]
    exact hfold _ s

theorem runActs_trace (cfg : Config) (s : BusState) (l : List HAction) :
    ((runActs cfg s l).1).trace = s.trace := by
  induction l generalizing s with
  | nil => rfl
  | cons a rest ih =>
    cases a with
    | throwErr => rfl
    | subscribe n lb inner p =>
      unfold runActs
      generalize hA : onModel cfg s n (Behavior.acts lb inner) p = r
      have h1 : r.1.trace = s.trace := by
        rw [← hA]
        exact onModel_trace cfg s n (Behavior.acts lb inner) p
      obtain ⟨s1, res⟩ := r
      cases res
      · exact h1
      · rw [ih]
        exact h1
    | offEvt n sel =>
      unfold runActs
      rw [ih, offModel_trace]

theorem runBehavior_acts_trace (cfg : Config) (s : BusState)
    (r : HandlerRecord) (args : List String)
    (h : behIsActs r.beh = true) :
    ((runBehavior cfg s r args).1).trace =
      s.trace ++ [(behLabel r.beh, args)] := by
  unfold runBehavior
  cases hb : r.beh with
  | acts lb l =>
    rw [runActs_trace]
    rfl
  | onceWrap lb ev inner => rw [hb] at h; simp [behIsActs] at h
  | manyWrap lb g ev ie io inner => rw [hb] at h; simp [behIsActs] at h

/-- The exact pass with plain (possibly mutating, possibly throwing)
user handlers appends exactly the snapshot's entries: mutations
performed by a running handler can not add to or remove from the pass,
because the pass iterates the snapshot copy (line 755). -/
theorem exactPass_acts (cfg : Config) (s : BusState)
    (snap : List HandlerRecord) (ev : String) (args : List String)
    (h : snap.all (fun r => behIsActs r.beh) = true) :
    (exactPass cfg s snap ev args).trace =
      s.trace ++ exactEntries cfg ev args snap := by
  induction snap generalizing s with
  | nil => simp [exactPass, exactEntries]
  | cons r rest ih =>
    simp only [List.all_cons, Bool.and_eq_true] at h
    unfold exactPass
    dsimp only
    rw [ih _ h.2, runBehavior_acts_trace cfg s r _ h.1]
    simp [exactEntries, exactCallArgs]

theorem runBehavior_trace_ext (cfg : Config) (s : BusState)
    (r : HandlerRecord) (args : List String) :
    ∃ t, ((runBehavior cfg s r args).1).trace = s.trace ++ t := by
  unfold runBehavior
  cases hb : r.beh with
  | acts lb l => exact ⟨[(lb, args)], by rw [runActs_trace]; rfl⟩
  | onceWrap lb ev inner =>
    dsimp only
    split
    · exact ⟨[(lb, args)], by rw [runActs_trace]; rfl⟩
    · exact ⟨[(lb, args)], by rw [offModel_trace, runActs_trace]; rfl⟩
  | manyWrap lb g ev ie io inner =>
    dsimp only
    split
    · exact ⟨[], by simp⟩
    · split
      · exact ⟨[(lb, if ie then ev :: args else args)],
          by rw [unsubAll_trace, runActs_trace]; rfl⟩
      · exact ⟨[(lb, if ie then ev :: args else args)],
          by rw [runActs_trace]; rfl⟩

theorem liveLoop_trace_ext (cfg : Config) (ev : String)
    (args : List String) (aref : Nat) (fuel i : Nat) (s : BusState) :
    ∃ t, (liveLoop cfg ev args aref fuel i s).trace = s.trace ++ t := by
  induction fuel generalizing i s with
  | zero => exact ⟨[], by simp [liveLoop]⟩
  | succ fuel ih =>
    unfold liveLoop
    dsimp only
    split
    · obtain ⟨t1, ht1⟩ := runBehavior_trace_ext cfg s
        (((alGet s.arrHeap aref).getD []).get ⟨i, by assumption⟩)
        (ev :: extractWildcardParams (patternOfAref s aref) ev ++ args)
      obtain ⟨t2, ht2⟩ := ih (i + 1)
        (runBehavior cfg s
          (((alGet s.arrHeap aref).getD []).get ⟨i, by assumption⟩)
          (ev :: extractWildcardParams (patternOfAref s aref) ev ++ args)).1
      exact ⟨t1 ++ t2, by rw [ht2, ht1, List.append_assoc]⟩
    · exact ⟨[], by simp⟩

theorem wildPatterns_trace_ext (cfg : Config) (fuel : Nat) (ev : String)
    (args : List String) (refs : List Nat) (s : BusState) :
    ∃ t, (wildPatterns cfg fuel ev args s refs).trace = s.trace ++ t := by
  induction refs generalizing s with
  | nil => exact ⟨[], by simp [wildPatterns]⟩
  | cons wref rest ih =>
    unfold wildPatterns
    dsimp only
    cases hw : alGet s.wHeap wref with
    | none =>
      obtain ⟨t, ht⟩ := ih s
      exact ⟨t, ht⟩
    | some wd =>
      dsimp only
      obtain ⟨t1, ht1⟩ := liveLoop_trace_ext cfg ev args wd.handlersRef fuel 0 s
      obtain ⟨t2, ht2⟩ := ih (liveLoop cfg ev args wd.handlersRef fuel 0 s)
      exact ⟨t1 ++ t2, by rw [ht2, ht1, List.append_assoc]⟩

theorem emitWild_trace_ext (cfg : Config) (fuel now : Nat) (s : BusState)
    (ev : String) (args : List String) :
    ∃ t, (emitWild cfg fuel now s ev args).trace = s.trace ++ t := by
  obtain ⟨hft, _, _, _, _⟩ := findMatchingWildcards_pre now s ev
  unfold emitWild
  dsimp only
  split
  · obtain ⟨t, ht⟩ := wildPatterns_trace_ext cfg fuel ev args
      (findMatchingWildcards now s ev).2
      { (findMatchingWildcards now s ev).1 with
        wildcardMatchCount :=
          (findMatchingWildcards now s ev).1.wildcardMatchCount +
            (findMatchingWildcards now s ev).2.length }
    refine ⟨t, ?_⟩
    rw [ht]
    have : ({ (findMatchingWildcards now s ev).1 with
        wildcardMatchCount :=
          (findMatchingWildcards now s ev).1.wildcardMatchCount +
            (findMatchingWildcards now s ev).2.length } : BusState).trace =
        (findMatchingWildcards now s ev).1.trace := rfl
    rw [this, hft]
  · obtain ⟨t, ht⟩ := wildPatterns_trace_ext cfg fuel ev args
      (findMatchingWildcards now s ev).2 (findMatchingWildcards now s ev).1
    refine ⟨t, ?_⟩
    rw [ht, hft]

/-!
## Claim theorems
-/

/-- **C1** — During one emit call, each handler invocation is
individually guarded (lines 755-767 and 779-795 wrap every invocation
in its own `try`): whatever subset of the registered plain handlers
throws, every handler of the exact pass and every matched wildcard
handler still produces its invocation, and `emitModel` is a total
function (the model never propagates a handler error to the caller,
mirroring the catch-and-log blocks).  `statePure` allows every handler
to throw; nothing restricts how many do. -/
theorem C1_error_isolation (cfg : Config) (fuel now : Nat) (s : BusState)
    (ev : String) (args : List String)
    (hp : statePure s = true) (hb : arraysBounded s fuel = true) :
    (∀ e ∈ exactEntries cfg ev args ((alGet s.events ev).getD []),
        e ∈ (emitModel cfg fuel now s ev args).trace) ∧
    (∀ e ∈ wildEntryList s ev args (emitMatches cfg now s ev args),
        e ∈ (emitModel cfg fuel now s ev args).trace) := by
  constructor
  · intro e he
    rw [emit_pure_trace cfg fuel now s ev args hp hb]
    exact List.mem_append.mpr (Or.inl (List.mem_append.mpr (Or.inr he)))
  · intro e he
    rw [emit_pure_trace cfg fuel now s ev args hp hb]
    exact List.mem_append.mpr (Or.inr he)

/-- Witness for C1: on `"e"`, handler 1 (first in order) throws, and
handler 2 (second in order, same event) is still invoked. -/
theorem C1_error_isolation_witness :
    statePure busTwoHandlers = true ∧
      (2, ["x"]) ∈ (emitModel defaultConfig 10 0 busTwoHandlers
        "e" ["x"]).trace :=
  ⟨by decide,
    (C1_error_isolation defaultConfig 10 0 busTwoHandlers "e" ["x"]
      (by decide) (by decide)).1 (2, ["x"]) (by decide)⟩

/-- **C5** — One `emit` dispatches the exact-match pass (lines 750-769)
before the wildcard pass (lines 771-798): with plain non-mutating
handlers the emitted trace is the previous trace, then *all* exact-pass
entries, then *all* wildcard-pass entries — so every exact handler runs
before any wildcard handler. -/
theorem C5_exact_before_wildcard (cfg : Config) (fuel now : Nat)
    (s : BusState) (ev : String) (args : List String)
    (hp : statePure s = true) (hb : arraysBounded s fuel = true) :
    (emitModel cfg fuel now s ev args).trace =
      s.trace ++ exactEntries cfg ev args ((alGet s.events ev).getD [])
        ++ wildEntryList s ev args (emitMatches cfg now s ev args) :=
  emit_pure_trace cfg fuel now s ev args hp hb

/-- Witness for C5: `"user.login"` has an exact subscriber (label 1)
and a matching wildcard subscriber on `"user.*"` (label 2); the exact
handler's entry precedes the wildcard handler's. -/
theorem C5_exact_before_wildcard_witness :
    (emitModel defaultConfig 10 0 busMixed "user.login" ["p"]).trace =
      busMixed.trace ++
        exactEntries defaultConfig "user.login" ["p"]
          ((alGet busMixed.events "user.login").getD []) ++
        wildEntryList busMixed "user.login" ["p"]
          (emitMatches defaultConfig 0 busMixed "user.login" ["p"]) :=
  C5_exact_before_wildcard defaultConfig 10 0 busMixed "user.login" ["p"]
    (by decide) (by decide)

/-- **C2 counterexample** — the wildcard pass iterates the *live*
handler array (`for...of wildcardData.handlers`, line 779), so a
handler that subscribes to the same pattern during its own invocation
adds a handler that runs in the *same* emit pass: before the emit the
`"a.*"` array holds only the label-1 handler, yet the emit invokes both
label 1 and the newly subscribed label 2, contradicting the claim that
mutations never change the set of handlers invoked in the current
pass. -/
theorem C2_counterexample :
    ((alGet busSelfSub.arrHeap 0).getD []).map (fun r => behLabel r.beh)
        = [1] ∧
      (emitModel defaultConfig 10 0 busSelfSub "a.x" []).trace =
        [(1, ["a.x", "x"]), (2, ["a.x", "x"])] := by
  constructor
  · decide
  · decide

/-- **C2 (amended)** — the exact-match pass *is* snapshot-protected:
`emit` copies the handler array (`[...handlersArray]`, line 755), so
with plain user handlers — which may subscribe, unsubscribe and throw
arbitrarily — the first invocations of the emit are exactly the
snapshot's entries, in snapshot order, whatever mutations the handlers
perform; the wildcard passes only come after.  (The wildcard pass
itself is *not* protected against same-pattern subscription, per the
counterexample.) -/
theorem C2_exact_snapshot_isolation (cfg : Config) (fuel now : Nat)
    (s : BusState) (ev : String) (args : List String)
    (h : ((alGet s.events ev).getD []).all (fun r => behIsActs r.beh)
      = true) :
    (emitModel cfg fuel now s ev args).trace.take
        (s.trace.length +
          (exactEntries cfg ev args ((alGet s.events ev).getD [])).length) =
      s.trace ++ exactEntries cfg ev args ((alGet s.events ev).getD []) := by
  obtain ⟨h1t, h1e, _, _, _⟩ := emitStage1_pre now s
  obtain ⟨t, ht⟩ := emitWild_trace_ext cfg fuel now
    (emitExact cfg (emitStage1 now s) ev args) ev args
  have hE : (emitExact cfg (emitStage1 now s) ev args).trace =
      s.trace ++ exactEntries cfg ev args ((alGet s.events ev).getD []) := by
    unfold emitExact
    rw [h1e, exactPass_acts cfg _ _ ev args h, h1t]
  unfold emitModel
  rw [ht, hE, List.append_assoc, ← List.length_append]
  rw [← List.append_assoc]
  exact List.take_left _ _

/-- Witness for the amended C2: handler 1 on `"e"` removes *all* `"e"`
handlers when invoked; handler 2 still runs in the same pass because
the pass iterates the snapshot. -/
theorem C2_exact_snapshot_isolation_witness :
    (emitModel defaultConfig 10 0 busMutatingExact "e" ["x"]).trace.take
        (busMutatingExact.trace.length +
          (exactEntries defaultConfig "e" ["x"]
            ((alGet busMutatingExact.events "e").getD [])).length) =
      busMutatingExact.trace ++
        exactEntries defaultConfig "e" ["x"]
          ((alGet busMutatingExact.events "e").getD []) :=
  C2_exact_snapshot_isolation defaultConfig 10 0 busMutatingExact "e" ["x"]
    (by decide)

/-- **C3 (code evidence)** — `on("login", handler, 50)` on a fresh bus:
the inner `let handlerId` (line 548) shadows the outer counter, so the
stored HandlerRecord's id is `NaN` (`++` on an uninitialised local) —
not a fresh globally-unique id — and `on` then throws a
`ReferenceError` at `const idToRemove = id || handlerId` (line 576,
`id` is block-scoped to the else-branch) instead of returning an
unsubscribe function; the registration itself survives.  Consequently
removal by id can never target the record: `off("login", 1)` and even
`off("login", NaN)` remove nothing, because `h.id !== handler` is true
for every number when `h.id` is `NaN`. -/
theorem C3_on_refErrors_and_nan_id :
    (onModel defaultConfig initState "login" (Behavior.acts 1 [])
        (some 50)).2 = Except.error JsErr.referenceError ∧
    ((alGet busLogin.events "login").map (fun l =>
        l.map (fun r => (r.fnId, r.priority, r.id))))
      = some [(0, 50, JsNum.nan)] ∧
    ((alGet (offModel busLogin "login"
        (OffArg.byId (JsNum.int 1))).events "login").map List.length)
      = some 1 ∧
    ((alGet (offModel busLogin "login"
        (OffArg.byId JsNum.nan)).events "login").map List.length)
      = some 1 := by
  refine ⟨rfl, ?_, ?_, ?_⟩ <;> decide

/-- **C7** — with a handler (label 3) on pattern `"user.*"`:
`emit("user.login", payload)` invokes it with
`("user.login", "login", payload)`; the subsequent
`emit("user.login.extra", payload)` invokes nothing (the trace does not
grow), because `*` compiles to `([^.]+)` — one or more characters
excluding `'.'` — anchored on both sides. -/
theorem C7_wildcard_capture :
    wildMatch "user.*" "user.login" = true ∧
    wildMatch "user.*" "user.login.extra" = false ∧
    extractWildcardParams "user.*" "user.login" = ["login"] ∧
    (emitModel defaultConfig 10 0 busUserStar "user.login"
        ["payload"]).trace
      = [(3, ["user.login", "login", "payload"])] ∧
    (emitModel defaultConfig 10 1
        (emitModel defaultConfig 10 0 busUserStar "user.login" ["payload"])
        "user.login.extra" ["payload"]).trace
      = [(3, ["user.login", "login", "payload"])] := by
  refine ⟨?_, ?_, ?_, ?_, ?_⟩ <;> decide

/-- **C8 (code evidence)** — `onceMany(["p.success","p.fail"], f)`:
the first `this.on` call inside `onMany` registers the adapter for
`"p.success"` and then raises the line-576 `ReferenceError`; the catch
block runs `unsubscribeAll` — which removes nothing (no unsubscribe
capability was ever collected) but sets the group's `isUnsubscribed`
flag — and rethrows a wrapped error.  So only `"p.success"` ever gets a
registration, and the permanently set flag makes the adapter bail out:
emitting `"p.success"` and then `"p.fail"` never invokes `f` at all,
and nothing is ever removed. -/
theorem C8_onceMany_never_fires :
    busOnceMany.2 = Except.error JsErr.wrappedError ∧
    busOnceMany.1.events.map (fun kv => kv.1) = ["p.success"] ∧
    groupFlag busOnceMany.1 0 = true ∧
    (emitModel defaultConfig 10 0 busOnceMany.1 "p.success" ["x"]).trace
      = [] ∧
    (emitModel defaultConfig 10 1
        (emitModel defaultConfig 10 0 busOnceMany.1 "p.success" ["x"])
        "p.fail" ["x"]).trace = [] := by
  refine ⟨rfl, ?_, ?_, ?_, ?_⟩ <;> decide

theorem foldl_jsAdd_undef_not_num (lst : List Nat) (c : JsVal)
    (hc : ∀ m : Int, c ≠ JsVal.num m) :
    ∀ n : Int,
      lst.foldl (fun c _ => jsAdd c JsVal.undef) c ≠ JsVal.num n := by
  induction lst generalizing c with
  | nil => exact hc
  | cons x rest ih =>
    intro n
    simp only [List.foldl_cons]
    refine ih (jsAdd c JsVal.undef) ?_ n
    intro m
    cases c <;> simp [jsAdd]

/-- **C10** — for every non-wildcard event name with at least one
registered handler, `count` reads `.size` on the handler `Array`
(line 838), which is `undefined`; after the wildcard additions
(`count += wildcardData.handlers.size`, line 844, again `.size` on an
array) the result is `undefined` or `NaN` — never the number of
registered handlers. -/
theorem C10_count_size_bug (now : Nat) (s : BusState) (ev : String)
    (l : List HandlerRecord)
    (hw : hasWildcard ev = false)
    (hl : alGet s.events ev = some l)
    (_hne : l ≠ []) :
    (countModel now s ev).2 ≠ JsVal.num (l.length : Int) := by
  unfold countModel
  rw [if_neg (by simp [hw])]
  dsimp only
  rw [hl]
  simp only [Option.isSome_some, if_pos]
  exact foldl_jsAdd_undef_not_num _ JsVal.undef (by intro m; simp) _

/-- Witness for C10: `"login"` has one registered handler, and
`count("login")` does not return 1. -/
theorem C10_count_size_bug_witness :
    (countModel 0 busLogin "login").2 ≠ JsVal.num 1 :=
  C10_count_size_bug 0 busLogin "login"
    [{ fnId := 0, beh := Behavior.acts 1 [], priority := 50
     , id := JsNum.nan }]
    (by decide) rfl (by simp)

theorem alGet_map_set {κ α : Type} [BEq κ] [LawfulBEq κ]
    (m : List (κ × α)) (k : κ) (v : α)
    (h : (m.find? (fun kv => kv.1 == k)).isSome = true) :
    alGet (m.map (fun kv => if kv.1 == k then (k, v) else kv)) k
      = some v := by
  induction m with
  | nil => simp [List.find?] at h
  | cons kv rest ih =>
    by_cases hk : kv.1 == k
    · simp only [List.map_cons, if_pos hk]
      unfold alGet
      simp [List.find?]
    · simp only [List.find?_cons, hk] at h
      simp only [List.map_cons, if_neg hk]
      unfold alGet at ih ⊢
      simp only [List.find?_cons, hk]
      exact ih h

theorem alGet_alSet_self {κ α : Type} [BEq κ] [LawfulBEq κ]
    (m : List (κ × α)) (k : κ) (v : α)
    (h : (alGet m k).isSome = true) :
    alGet (alSet m k v) k = some v := by
  unfold alGet at h
  rw [Option.isSome_map'] at h
  unfold alSet
  rw [if_pos h]
  exact alGet_map_set m k v h

/-- **C9 counterexample** — after `emit("a.x")` at time 0 cached the
match list with timestamp 0, a lookup at time 6000 — with the entry
6000 > 5000 time units stale — still takes the cache-hit path: the miss
counter does not move (no recomputation from the pattern index), the
hit counter is bumped, and the 6000-units-old cached list is returned.
This falsifies "MatchCache never returns a result older than TTL
without refreshing from PatternIndex". -/
theorem C9_counterexample :
    ((alGet busCached.matchCache "a.x:match").map (fun e => e.timestamp))
        = some 0 ∧
    (6000 : Nat) - 0 > 5000 ∧
    (findMatchingWildcards 6000 busCached "a.x").1.cacheMissCount
        = busCached.cacheMissCount ∧
    (findMatchingWildcards 6000 busCached "a.x").1.cacheHitCount
        = busCached.cacheHitCount + 1 ∧
    (findMatchingWildcards 6000 busCached "a.x").2 = [0] := by
  refine ⟨?_, ?_, ?_, ?_, ?_⟩ <;> decide

/-- **C9 (amended)** — a cache lookup never consults the TTL: whenever
an entry exists for the event — however stale — `findMatchingWildcards`
returns exactly the cached match list, performs no recomputation (the
miss counter is unchanged; the hit counter is incremented), and merely
slides the entry's timestamp to the access time.  TTL expiry is
enforced only by the periodic sweep (every 100th emit) and the
size-cap eviction. -/
theorem C9_cache_hit_ignores_ttl (now : Nat) (s : BusState) (ev : String)
    (e : CacheEntry)
    (he : alGet s.matchCache (ev ++ ":match") = some e) :
    (findMatchingWildcards now s ev).2 = e.hits ∧
    (findMatchingWildcards now s ev).1.cacheMissCount = s.cacheMissCount ∧
    (findMatchingWildcards now s ev).1.cacheHitCount
      = s.cacheHitCount + 1 ∧
    alGet (findMatchingWildcards now s ev).1.matchCache (ev ++ ":match")
      = some { e with timestamp := now } := by
  unfold findMatchingWildcards
  dsimp only
  rw [he]
  dsimp only
  refine ⟨rfl, rfl, rfl, ?_⟩
  exact alGet_alSet_self s.matchCache (ev ++ ":match")
    { e with timestamp := now } (by rw [he]; rfl)

/-- Witness for the amended C9: the stale `busCached` entry (timestamp
0, 6000 time units old) is served as-is at time 6000 and its timestamp
slides to 6000. -/
theorem C9_cache_hit_ignores_ttl_witness :
    (findMatchingWildcards 6000 busCached "a.x").2
        = (CacheEntry.mk [0] 0).hits ∧
    (findMatchingWildcards 6000 busCached "a.x").1.cacheMissCount
        = busCached.cacheMissCount ∧
    (findMatchingWildcards 6000 busCached "a.x").1.cacheHitCount
        = busCached.cacheHitCount + 1 ∧
    alGet (findMatchingWildcards 6000 busCached "a.x").1.matchCache
        "a.x:match"
      = some { CacheEntry.mk [0] 0 with timestamp := 6000 } :=
  C9_cache_hit_ignores_ttl 6000 busCached "a.x" (CacheEntry.mk [0] 0)
    (by decide)

/-- **C6 counterexample** — `once("e", handler)` with a throwing
handler: `onceHandler` has no try/finally (lines 599-602), so the throw
skips `self.off(event, onceHandler)`; the registration survives the
first emit, and the handler (label 7) fires *again* on the second emit
— contradicting "invoked on exactly the first matching emit and on no
later emit, even when the handler throws". -/
theorem C6_counterexample :
    ((emitModel defaultConfig 10 0 busOnceThrow "e" []).events.map
        (fun kv => kv.1)) = ["e"] ∧
    (emitModel defaultConfig 10 1
        (emitModel defaultConfig 10 0 busOnceThrow "e" []) "e" []).trace
      = [(7, []), (7, [])] := by
  refine ⟨?_, ?_⟩ <;> decide

theorem onceModel_init (ev : String) (L : Nat)
    (hb : jsBlank ev = false) (hw : hasWildcard ev = false) :
    (onceModel defaultConfig initState ev L []).1 = onceBus ev L := by
  unfold onceModel onModel
  rw [if_neg (by simp [hb]), if_neg (by simp [hw])]
  dsimp only
  simp [alGet, alSet, initState, sortDesc, insertDesc, onceRec, onceBus,
    List.find?, defaultConfig]

theorem wildPatterns_wHeap_nil (cfg : Config) (fuel : Nat) (ev : String)
    (args : List String) (refs : List Nat) (s : BusState)
    (hh : s.wHeap = []) :
    wildPatterns cfg fuel ev args s refs = s := by
  induction refs with
  | nil => rfl
  | cons wref rest ih =>
    unfold wildPatterns
    dsimp only
    rw [show alGet s.wHeap wref = none by rw [hh]; rfl]
    exact ih

theorem emitWild_empty (cfg : Config) (fuel now : Nat) (s : BusState)
    (ev : String) (args : List String) (hh : s.wHeap = []) :
    (emitWild cfg fuel now s ev args).events = s.events ∧
    (emitWild cfg fuel now s ev args).wildcardEvents = s.wildcardEvents ∧
    (emitWild cfg fuel now s ev args).wHeap = s.wHeap ∧
    (emitWild cfg fuel now s ev args).trace = s.trace := by
  obtain ⟨hft, hfe, hfw, hfh, _⟩ := findMatchingWildcards_pre now s ev
  unfold emitWild
  dsimp only
  split
  · rw [wildPatterns_wHeap_nil cfg fuel ev args _ _ (by exact hfh.trans hh)]
    exact ⟨hfe, hfw, hfh, hft⟩
  · rw [wildPatterns_wHeap_nil cfg fuel ev args _ _ (by exact hfh.trans hh)]
    exact ⟨hfe, hfw, hfh, hft⟩

/-- An `emit` on a bus with no registrations at all leaves the (empty)
registries and the trace untouched. -/
theorem emit_empty_bus (cfg : Config) (fuel now : Nat) (s : BusState)
    (ev : String) (args : List String)
    (he : s.events = []) (hw : s.wildcardEvents = [])
    (hh : s.wHeap = []) :
    (emitModel cfg fuel now s ev args).events = [] ∧
    (emitModel cfg fuel now s ev args).wildcardEvents = [] ∧
    (emitModel cfg fuel now s ev args).wHeap = [] ∧
    (emitModel cfg fuel now s ev args).trace = s.trace := by
  obtain ⟨h1t, h1e, h1w, h1h, _⟩ := emitStage1_pre now s
  have hE : emitExact cfg (emitStage1 now s) ev args = emitStage1 now s := by
    unfold emitExact
    rw [h1e, he]
    rfl
  unfold emitModel
  rw [hE]
  obtain ⟨we, ww, wh, wt⟩ :=
    emitWild_empty cfg fuel now (emitStage1 now s) ev args (h1h.trans hh)
  exact ⟨we.trans (h1e.trans he), ww.trans (h1w.trans hw),
    wh.trans (h1h.trans hh), wt.trans h1t⟩

theorem emitSeq_empty (cfg : Config) (fuel : Nat) (ev : String)
    (args : List String) (nows : List Nat) (s : BusState)
    (he : s.events = []) (hw : s.wildcardEvents = [])
    (hh : s.wHeap = []) :
    (emitSeq cfg fuel ev args nows s).trace = s.trace := by
  induction nows generalizing s with
  | nil => rfl
  | cons nw rest ih =>
    unfold emitSeq
    simp only [List.foldl_cons]
    obtain ⟨e1, w1, hh1, t1⟩ := emit_empty_bus cfg fuel nw s ev args he hw hh
    unfold emitSeq at ih
    rw [ih _ e1 w1 hh1, t1]

theorem once_first_emit (ev : String) (L : Nat) (args : List String)
    (fuel now : Nat) (hw : hasWildcard ev = false) :
    (emitModel defaultConfig fuel now (onceBus ev L) ev args).trace
        = [(L, args)] ∧
    (emitModel defaultConfig fuel now (onceBus ev L) ev args).events = [] ∧
    (emitModel defaultConfig fuel now (onceBus ev L) ev args).wildcardEvents
        = [] ∧
    (emitModel defaultConfig fuel now (onceBus ev L) ev args).wHeap = [] := by
  have hs1 : emitStage1 now (onceBus ev L) =
      { onceBus ev L with emitCount := 1 } := by
    unfold emitStage1
    dsimp only
    rw [if_neg (by simp only [onceBus, initState]; decide)]
    rfl
  have hE : emitExact defaultConfig { onceBus ev L with emitCount := 1 }
      ev args =
      { onceBus ev L with emitCount := 1, events := [], trace := [(L, args)] } := by
    simp [emitExact, exactPass, runBehavior, runActs, pushTrace, offModel,
      hw, onceBus, onceRec, alGet, alSet, alDel, List.find?, initState,
      jsNeq, defaultConfig, List.filter]
  unfold emitModel
  rw [hs1, hE]
  obtain ⟨we, ww, wh, wt⟩ := emitWild_empty defaultConfig fuel now
    { onceBus ev L with emitCount := 1, events := [], trace := [(L, args)] }
    ev args rfl
  exact ⟨wt, we, ww, wh⟩

/-!
## Stable-sort order invariant

`handlers.sort((a,b) => b.priority - a.priority)` is a stable sort, so
repeatedly pushing a record and re-sorting keeps the list in priority
order with ties in push order.  `insLast` is where a stable descending
sort places a newly appended element.
-/

theorem insLast_nil (x : HandlerRecord) : insLast x [] = [x] := rfl

theorem insLast_cons (x y : HandlerRecord) (ys : List HandlerRecord) :
    insLast x (y :: ys) =
      if y.priority ≥ x.priority then y :: insLast x ys
      else x :: y :: ys := rfl

theorem insertDesc_cons (x y : HandlerRecord) (ys : List HandlerRecord) :
    insertDesc x (y :: ys) =
      if x.priority ≥ y.priority then x :: y :: ys
      else y :: insertDesc x ys := rfl

theorem sortDesc_cons (x : HandlerRecord) (xs : List HandlerRecord) :
    sortDesc (x :: xs) = insertDesc x (sortDesc xs) := rfl

theorem mem_insLast (x a : HandlerRecord) (l : List HandlerRecord) :
    a ∈ insLast x l ↔ a = x ∨ a ∈ l := by
  induction l with
  | nil => simp [insLast_nil]
  | cons y ys ih =>
    rw [insLast_cons]
    by_cases hyx : y.priority ≥ x.priority
    · rw [if_pos hyx]
      simp only [List.mem_cons, ih]
      tauto
    · rw [if_neg hyx]
      simp only [List.mem_cons]

theorem insLast_perm (x : HandlerRecord) (l : List HandlerRecord) :
    (insLast x l).Perm (x :: l) := by
  induction l with
  | nil => rfl
  | cons y ys ih =>
    rw [insLast_cons]
    by_cases hyx : y.priority ≥ x.priority
    · rw [if_pos hyx]
      exact (ih.cons y).trans (List.Perm.swap x y ys)
    · rw [if_neg hyx]

theorem sortDesc_append_single (l : List HandlerRecord)
    (x : HandlerRecord)
    (hs : l.Pairwise (fun a b => a.priority ≥ b.priority)) :
    sortDesc (l ++ [x]) = insLast x l := by
  induction l with
  | nil => rfl
  | cons a l' ih =>
    rw [List.pairwise_cons] at hs
    have hal' : ∀ b ∈ l', b.priority ≤ a.priority := fun b hb => hs.1 b hb
    rw [List.cons_append, sortDesc_cons, ih hs.2, insLast_cons]
    by_cases hax : a.priority ≥ x.priority
    · rw [if_pos hax]
      cases hil : insLast x l' with
      | nil => rfl
      | cons z l'' =>
        have hz : z.priority ≤ a.priority := by
          have hzmem : z ∈ insLast x l' := by
            rw [hil]; exact List.mem_cons_self _ _
          rcases (mem_insLast x z l').mp hzmem with h | h
          · rw [h]; exact hax
          · exact hal' z h
        rw [insertDesc_cons, if_pos hz]
    · rw [if_neg hax]
      have hxl : insLast x l' = x :: l' := by
        cases l' with
        | nil => rfl
        | cons b l'' =>
          rw [insLast_cons, if_neg (by
            have := hal' b (List.mem_cons_self _ _)
            omega)]
      rw [hxl, insertDesc_cons, if_neg hax]
      congr 1
      cases l' with
      | nil => rfl
      | cons b l'' =>
        rw [insertDesc_cons, if_pos (hal' b (List.mem_cons_self _ _))]

theorem hrel_ge (a b : HandlerRecord) (h : hrel a b) :
    a.priority ≥ b.priority := by
  unfold hrel at h
  omega

theorem pairwise_hrel_insLast (x : HandlerRecord)
    (l : List HandlerRecord) (hp : l.Pairwise hrel)
    (hf : ∀ y ∈ l, y.fnId < x.fnId) :
    (insLast x l).Pairwise hrel := by
  induction l with
  | nil => simp [insLast_nil]
  | cons y ys ih =>
    rw [List.pairwise_cons] at hp
    rw [insLast_cons]
    by_cases hyx : y.priority ≥ x.priority
    · rw [if_pos hyx]
      rw [List.pairwise_cons]
      constructor
      · intro b hb
        rcases (mem_insLast x b ys).mp hb with h | h
        · rw [h]
          unfold hrel
          by_cases he : y.priority = x.priority
          · exact Or.inr ⟨he, hf y (List.mem_cons_self _ _)⟩
          · left; omega
        · exact hp.1 b h
      · exact ih hp.2 (fun z hz => hf z (List.mem_cons_of_mem _ hz))
    · rw [if_neg hyx]
      rw [List.pairwise_cons]
      constructor
      · intro b hb
        rw [List.mem_cons] at hb
        unfold hrel
        rcases hb with h | h
        · rw [h]; left; omega
        · have := hrel_ge y b (hp.1 b h)
          left; omega
      · exact List.Pairwise.cons hp.1 hp.2

theorem jsPush_fold_inv (xs : List HandlerRecord) :
    ∀ (st : List HandlerRecord), st.Pairwise hrel →
      (∀ y ∈ st, ∀ x ∈ xs, y.fnId < x.fnId) →
      xs.Pairwise (fun a b => a.fnId < b.fnId) →
      (xs.foldl jsPush st).Pairwise hrel ∧
        (xs.foldl jsPush st).Perm (st ++ xs) := by
  induction xs with
  | nil => intro st h1 _ _; exact ⟨h1, by simp⟩
  | cons x rest ih =>
    intro st h1 h2 h3
    rw [List.pairwise_cons] at h3
    simp only [List.foldl_cons]
    have hpush : jsPush st x = insLast x st :=
      sortDesc_append_single st x (h1.imp (fun h => hrel_ge _ _ h))
    have hx : ∀ y ∈ st, y.fnId < x.fnId :=
      fun y hy => h2 y hy x (List.mem_cons_self _ _)
    have hp' : (jsPush st x).Pairwise hrel := by
      rw [hpush]
      exact pairwise_hrel_insLast x st h1 hx
    have hperm : (jsPush st x).Perm (x :: st) := by
      rw [hpush]
      exact insLast_perm x st
    have h2' : ∀ y ∈ jsPush st x, ∀ z ∈ rest, y.fnId < z.fnId := by
      intro y hy z hz
      rcases List.mem_cons.mp (hperm.mem_iff.mp hy) with h | h
      · rw [h]
        exact h3.1 z hz
      · exact h2 y h z (List.mem_cons_of_mem _ hz)
    obtain ⟨ha, hb⟩ := ih (jsPush st x) hp' h2' h3.2
    refine ⟨ha, hb.trans ?_⟩
    have p1 : (jsPush st x ++ rest).Perm ((x :: st) ++ rest) :=
      hperm.append_right rest
    have p2 : ((x :: st) ++ rest).Perm (st ++ (x :: rest)) := by
      simp only [List.cons_append]
      exact List.perm_middle.symm
    exact p1.trans p2

/-!
## Registration-fold characterization
-/

theorem mkRecs_length (n : Nat) (regs : List (Nat × Int)) :
    (mkRecs n regs).length = regs.length := by
  induction regs generalizing n with
  | nil => rfl
  | cons lp rest ih => simp [mkRecs, ih]

theorem mkRecs_fnId_ge (n : Nat) (regs : List (Nat × Int)) :
    ∀ r ∈ mkRecs n regs, n ≤ r.fnId := by
  induction regs generalizing n with
  | nil => intro r hr; simp [mkRecs] at hr
  | cons lp rest ih =>
    intro r hr
    rcases List.mem_cons.mp hr with h | h
    · rw [h]; exact le_refl n
    · have := ih (n + 1) r h
      omega

theorem mkRecs_fnId_lt (n : Nat) (regs : List (Nat × Int)) :
    (mkRecs n regs).Pairwise (fun a b => a.fnId < b.fnId) := by
  induction regs generalizing n with
  | nil => exact List.Pairwise.nil
  | cons lp rest ih =>
    refine List.Pairwise.cons ?_ (ih (n + 1))
    intro b hb
    have := mkRecs_fnId_ge (n + 1) rest b hb
    show n < b.fnId
    omega

theorem mkRecs_getElem (regs : List (Nat × Int)) :
    ∀ (n i : Nat) (h : i < regs.length),
      (mkRecs n regs).get ⟨i, by rw [mkRecs_length]; exact h⟩
        = mkRec (n + i) (regs.get ⟨i, h⟩) := by
  induction regs with
  | nil => intro n i h; exact absurd h (by simp)
  | cons lp rest ih =>
    intro n i h
    cases i with
    | zero => simp [mkRecs]
    | succ k =>
      simp only [mkRecs, List.get_eq_getElem, List.getElem_cons_succ]
      have hx := ih (n + 1) k (by simpa using h)
      simp only [List.get_eq_getElem] at hx
      rw [hx]
      congr 1
      omega

theorem mkRecs_labels (n : Nat) (regs : List (Nat × Int)) :
    (mkRecs n regs).map (fun r => behLabel r.beh) = regs.map Prod.fst := by
  induction regs generalizing n with
  | nil => rfl
  | cons lp rest ih =>
    simp only [mkRecs, List.map_cons, ih]
    rfl

theorem mkRecs_pure (n : Nat) (regs : List (Nat × Int)) :
    ∀ r ∈ mkRecs n regs, recPure r = true := by
  induction regs generalizing n with
  | nil => intro r hr; simp [mkRecs] at hr
  | cons lp rest ih =>
    intro r hr
    rcases List.mem_cons.mp hr with h | h
    · rw [h]; rfl
    · exact ih (n + 1) r h

theorem mkRecsW_length (cfg : Config) (n : Nat)
    (regs : List (Nat × Int)) :
    (mkRecsW cfg n regs).length = regs.length := by
  induction regs generalizing n with
  | nil => rfl
  | cons lp rest ih => simp [mkRecsW, ih]

theorem mkRecsW_fnId_ge (cfg : Config) (n : Nat)
    (regs : List (Nat × Int)) :
    ∀ r ∈ mkRecsW cfg n regs, n ≤ r.fnId := by
  induction regs generalizing n with
  | nil => intro r hr; simp [mkRecsW] at hr
  | cons lp rest ih =>
    intro r hr
    rcases List.mem_cons.mp hr with h | h
    · rw [h]; exact le_refl n
    · have := ih (n + 1) r h
      omega

theorem mkRecsW_fnId_lt (cfg : Config) (n : Nat)
    (regs : List (Nat × Int)) :
    (mkRecsW cfg n regs).Pairwise (fun a b => a.fnId < b.fnId) := by
  induction regs generalizing n with
  | nil => exact List.Pairwise.nil
  | cons lp rest ih =>
    refine List.Pairwise.cons ?_ (ih (n + 1))
    intro b hb
    have := mkRecsW_fnId_ge cfg (n + 1) rest b hb
    show n < b.fnId
    omega

theorem mkRecsW_getElem (cfg : Config) (regs : List (Nat × Int)) :
    ∀ (n i : Nat) (h : i < regs.length),
      (mkRecsW cfg n regs).get ⟨i, by rw [mkRecsW_length]; exact h⟩
        = mkRecW cfg (n + i) (regs.get ⟨i, h⟩) := by
  induction regs with
  | nil => intro n i h; exact absurd h (by simp)
  | cons lp rest ih =>
    intro n i h
    cases i with
    | zero => simp [mkRecsW]
    | succ k =>
      simp only [mkRecsW, List.get_eq_getElem, List.getElem_cons_succ]
      have hx := ih (n + 1) k (by simpa using h)
      simp only [List.get_eq_getElem] at hx
      rw [hx]
      congr 1
      omega

theorem mkRecsW_labels (cfg : Config) (n : Nat)
    (regs : List (Nat × Int)) :
    (mkRecsW cfg n regs).map (fun r => behLabel r.beh)
      = regs.map Prod.fst := by
  induction regs generalizing n with
  | nil => rfl
  | cons lp rest ih =>
    simp only [mkRecsW, List.map_cons, ih]
    rfl

theorem mkRecsW_pure (cfg : Config) (n : Nat) (regs : List (Nat × Int)) :
    ∀ r ∈ mkRecsW cfg n regs, recPure r = true := by
  induction regs generalizing n with
  | nil => intro r hr; simp [mkRecsW] at hr
  | cons lp rest ih =>
    intro r hr
    rcases List.mem_cons.mp hr with h | h
    · rw [h]; rfl
    · exact ih (n + 1) r h

theorem clampPriority_eq (p : Int) (h0 : 0 ≤ p) (h1 : p ≤ 100) :
    clampPriority p = p := by
  unfold clampPriority
  omega

theorem jsOrDefault_eq (p d : Int) (h : p ≠ 0) : jsOrDefault p d = p := by
  unfold jsOrDefault
  simp [h]

theorem onModel_exact_base (name : String) (lb : Nat) (p : Int)
    (hb : jsBlank name = false) (hwn : hasWildcard name = false) :
    (onModel defaultConfig initState name (Behavior.acts lb [])
        (some p)).1 = exactRegState name [mkRec 0 (lb, p)] 1 := by
  simp [onModel, hb, hwn, exactRegState, alGet, alSet, List.find?,
    initState, jsPush, mkRec, sortDesc, insertDesc]

theorem onModel_exact_step (name : String) (st : List HandlerRecord)
    (n : Nat) (lb : Nat) (p : Int)
    (hb : jsBlank name = false) (hwn : hasWildcard name = false) :
    (onModel defaultConfig (exactRegState name st n) name
        (Behavior.acts lb []) (some p)).1
      = exactRegState name (jsPush st (mkRec n (lb, p))) (n + 1) := by
  simp [onModel, hb, hwn, exactRegState, alGet, alSet, List.find?,
    initState, jsPush, mkRec]

theorem regFold_exact_aux (name : String)
    (hb : jsBlank name = false) (hwn : hasWildcard name = false)
    (regs : List (Nat × Int)) :
    ∀ (st : List HandlerRecord) (n : Nat),
      regFold defaultConfig name regs (exactRegState name st n)
        = exactRegState name ((mkRecs n regs).foldl jsPush st)
            (n + regs.length) := by
  induction regs with
  | nil => intro st n; simp [regFold, mkRecs]
  | cons r rest ih =>
    intro st n
    unfold regFold
    simp only [List.foldl_cons]
    rw [onModel_exact_step name st n r.1 r.2 hb hwn]
    unfold regFold at ih
    rw [ih (jsPush st (mkRec n (r.1, r.2))) (n + 1)]
    simp only [mkRecs, List.foldl_cons, List.length_cons]
    congr 1
    omega

theorem regFold_exact (name : String) (r : Nat × Int)
    (rest : List (Nat × Int))
    (hb : jsBlank name = false) (hwn : hasWildcard name = false) :
    regFold defaultConfig name (r :: rest) initState
      = exactRegState name ((mkRecs 0 (r :: rest)).foldl jsPush [])
          (r :: rest).length := by
  unfold regFold
  simp only [List.foldl_cons]
  rw [onModel_exact_base name r.1 r.2 hb hwn]
  have haux := regFold_exact_aux name hb hwn rest [mkRec 0 (r.1, r.2)] 1
  unfold regFold at haux
  rw [haux]
  simp only [mkRecs, List.foldl_cons, List.length_cons]
  congr 1
  omega

theorem onModel_wild_base (name : String) (lb : Nat) (p : Int)
    (hb : jsBlank name = false) (hwn : hasWildcard name = true)
    (hcount : countWildcards name ≤ 5) :
    (onModel defaultConfig initState name (Behavior.acts lb [])
        (some p)).1 = wildRegState name [mkRecW defaultConfig 0 (lb, p)] 1 := by
  have hc : ¬(countWildcards name >
      defaultConfig.maxWildcardsPerPattern) := by
    simp only [defaultConfig]
    omega
  simp [onModel, addWildcardIndex, awiPush, clearRelatedMatchCache, hb,
    hwn, hc, alGet, alSet, List.find?, initState, wildRegState, mkRecW,
    jsPush, sortDesc, insertDesc]

theorem onModel_wild_step (name : String) (st : List HandlerRecord)
    (n : Nat) (lb : Nat) (p : Int)
    (hb : jsBlank name = false) (hwn : hasWildcard name = true) :
    (onModel defaultConfig (wildRegState name st n) name
        (Behavior.acts lb []) (some p)).1
      = wildRegState name (jsPush st (mkRecW defaultConfig n (lb, p)))
          (n + 1) := by
  simp [onModel, addWildcardIndex, awiPush, clearRelatedMatchCache, hb,
    hwn, alGet, alSet, List.find?, initState, wildRegState, mkRecW,
    jsPush]

theorem regFold_wild_aux (name : String)
    (hb : jsBlank name = false) (hwn : hasWildcard name = true)
    (regs : List (Nat × Int)) :
    ∀ (st : List HandlerRecord) (n : Nat),
      regFold defaultConfig name regs (wildRegState name st n)
        = wildRegState name
            ((mkRecsW defaultConfig n regs).foldl jsPush st)
            (n + regs.length) := by
  induction regs with
  | nil => intro st n; simp [regFold, mkRecsW]
  | cons r rest ih =>
    intro st n
    unfold regFold
    simp only [List.foldl_cons]
    rw [onModel_wild_step name st n r.1 r.2 hb hwn]
    unfold regFold at ih
    rw [ih (jsPush st (mkRecW defaultConfig n (r.1, r.2))) (n + 1)]
    simp only [mkRecsW, List.foldl_cons, List.length_cons]
    congr 1
    omega

theorem regFold_wild (name : String) (r : Nat × Int)
    (rest : List (Nat × Int))
    (hb : jsBlank name = false) (hwn : hasWildcard name = true)
    (hcount : countWildcards name ≤ 5) :
    regFold defaultConfig name (r :: rest) initState
      = wildRegState name
          ((mkRecsW defaultConfig 0 (r :: rest)).foldl jsPush [])
          (r :: rest).length := by
  unfold regFold
  simp only [List.foldl_cons]
  rw [onModel_wild_base name r.1 r.2 hb hwn hcount]
  have haux := regFold_wild_aux name hb hwn rest
    [mkRecW defaultConfig 0 (r.1, r.2)] 1
  unfold regFold at haux
  rw [haux]
  simp only [mkRecsW, List.foldl_cons, List.length_cons]
  congr 1
  omega

theorem toList_asString (l : List Char) : (l.asString).toList = l := rfl

theorem wexec_isPrefix :
    ∀ (p e : List Char), (wexec p e).isSome = true →
      (p.takeWhile (fun c => c != '*')).isPrefixOf e = true := by
  intro p
  induction p with
  | nil =>
    intro e _
    simp [List.takeWhile, List.isPrefixOf]
  | cons c ps ih =>
    intro e h
    by_cases hc : c = '*'
    · subst hc
      simp [List.takeWhile, List.isPrefixOf]
    · unfold wexec at h
      rw [if_neg hc] at h
      cases e with
      | nil => simp at h
      | cons x es =>
        dsimp only at h
        by_cases hx : c = x
        · rw [if_pos hx] at h
          have htail := ih es h
          simp only [List.takeWhile, List.isPrefixOf]
          rw [show (c != '*') = true by simp [hc]]
          simp only [List.isPrefixOf]
          rw [show (c == x) = true by simp [hx]]
          simpa using htail
        · rw [if_neg hx] at h
          simp at h

theorem findMatchingWildcards_nil (now : Nat) (s : BusState)
    (ev : String) (hmc : s.matchCache = [])
    (hwe : s.wildcardEvents = []) :
    (findMatchingWildcards now s ev).2 = [] := by
  unfold findMatchingWildcards
  dsimp only
  rw [show alGet s.matchCache (ev ++ ":match") = none from by
    rw [hmc]; rfl]
  dsimp only
  rw [hwe]
  rfl

theorem findMatchingWildcards_single (now : Nat) (s : BusState)
    (ev name : String) (hmc : s.matchCache = [])
    (hwe : s.wildcardEvents = [(name, 0)])
    (hwh : s.wHeap = [(0, WData.mk name (splitHead '*' name) 0)])
    (hm : wildMatch name ev = true) :
    (findMatchingWildcards now s ev).2 = [0] := by
  unfold findMatchingWildcards
  dsimp only
  rw [show alGet s.matchCache (ev ++ ":match") = none from by
    rw [hmc]; rfl]
  dsimp only
  rw [hwe]
  simp only [List.foldl_cons, List.foldl_nil]
  rw [show alGet s.wHeap 0
      = some (WData.mk name (splitHead '*' name) 0) from by
    rw [hwh]; rfl]
  dsimp only
  have hsw : jsStartsWith ev (splitHead '*' name) = true := by
    unfold jsStartsWith splitHead
    rw [toList_asString]
    exact wexec_isPrefix name.toList ev.toList hm
  rw [hsw]
  simp [hm]

theorem wildEntryList_wildReg (name : String) (st : List HandlerRecord)
    (N : Nat) (ev : String) (args : List String) :
    wildEntryList (wildRegState name st N) ev args [0]
      = st.map (fun r =>
          (behLabel r.beh,
            ev :: extractWildcardParams name ev ++ args)) := by
  unfold wildEntryList wildEntriesFor patternOfAref
  simp [wildRegState, alGet, List.find?, initState, wildEntryList_nil]

theorem pairwise_positions (l : List HandlerRecord)
    (hp : l.Pairwise hrel) (Ri Rj : HandlerRecord)
    (hi : Ri ∈ l) (hj : Rj ∈ l) (hrelij : hrel Ri Rj) (hne : Ri ≠ Rj) :
    ∃ u v : Fin l.length, u < v ∧ l.get u = Ri ∧ l.get v = Rj := by
  obtain ⟨u, hu⟩ := List.mem_iff_get.mp hi
  obtain ⟨v, hv⟩ := List.mem_iff_get.mp hj
  have huv : u ≠ v := by
    intro h
    exact hne (by rw [← hu, ← hv, h])
  rcases lt_or_gt_of_ne huv with h | h
  · exact ⟨u, v, h, hu, hv⟩
  · exfalso
    have hvu := (List.pairwise_iff_get.mp hp) v u h
    rw [hu, hv] at hvu
    unfold hrel at hvu hrelij
    omega

theorem label_positions (st : List HandlerRecord)
    (hp : st.Pairwise hrel)
    (hnd : (st.map (fun r => behLabel r.beh)).Nodup)
    (Ri Rj : HandlerRecord) (hi : Ri ∈ st) (hj : Rj ∈ st)
    (hrelij : hrel Ri Rj) (hne : Ri ≠ Rj) :
    (st.map (fun r => behLabel r.beh)).indexOf (behLabel Ri.beh) <
      (st.map (fun r => behLabel r.beh)).indexOf (behLabel Rj.beh) := by
  obtain ⟨u, v, huv, hu, hv⟩ :=
    pairwise_positions st hp Ri Rj hi hj hrelij hne
  have hul : (u : Nat) < (st.map (fun r => behLabel r.beh)).length := by
    rw [List.length_map]; exact u.isLt
  have hvl : (v : Nat) < (st.map (fun r => behLabel r.beh)).length := by
    rw [List.length_map]; exact v.isLt
  have hgu : (st.map (fun r => behLabel r.beh))[(u : Nat)]
      = behLabel Ri.beh := by
    rw [List.getElem_map]
    rw [show st[(u : Nat)] = st.get u from rfl, hu]
  have hgv : (st.map (fun r => behLabel r.beh))[(v : Nat)]
      = behLabel Rj.beh := by
    rw [List.getElem_map]
    rw [show st[(v : Nat)] = st.get v from rfl, hv]
  have hiu := List.indexOf_getElem hnd (u : Nat) hul
  have hiv := List.indexOf_getElem hnd (v : Nat) hvl
  rw [hgu] at hiu
  rw [hgv] at hiv
  rw [hiu, hiv]
  exact huv

theorem statePure_exactReg (name : String) (st : List HandlerRecord)
    (N : Nat) (hpure : ∀ r ∈ st, recPure r = true) :
    statePure (exactRegState name st N) = true := by
  unfold statePure exactRegState
  simp only [initState, List.all_cons, List.all_nil, Bool.and_true,
    Bool.true_and, Bool.and_eq_true, List.all_eq_true]
  exact hpure

theorem statePure_wildReg (name : String) (st : List HandlerRecord)
    (N : Nat) (hpure : ∀ r ∈ st, recPure r = true) :
    statePure (wildRegState name st N) = true := by
  unfold statePure wildRegState
  simp only [initState, List.all_cons, List.all_nil, Bool.and_true,
    Bool.true_and, Bool.and_eq_true, List.all_eq_true]
  exact hpure

theorem arraysBounded_wildReg (name : String) (st : List HandlerRecord)
    (N fuel : Nat) (hfuel : st.length ≤ fuel) :
    arraysBounded (wildRegState name st N) fuel = true := by
  unfold arraysBounded wildRegState
  simp [initState, hfuel]

theorem emit_exactReg_trace (name : String) (st : List HandlerRecord)
    (N fuel now : Nat) (args : List String)
    (hpure : ∀ r ∈ st, recPure r = true) :
    (emitModel defaultConfig fuel now (exactRegState name st N) name
        args).trace
      = st.map (fun r => (behLabel r.beh, args)) := by
  have hp := statePure_exactReg name st N hpure
  have hbn : arraysBounded (exactRegState name st N) fuel = true := rfl
  rw [emit_pure_trace defaultConfig fuel now _ name args hp hbn]
  have h1 := emitStage1_pre now (exactRegState name st N)
  have hp1 : statePure (emitStage1 now (exactRegState name st N))
      = true := by
    unfold statePure at hp ⊢
    rw [h1.2.1, h1.2.2.2.2]
    exact hp
  have hsE := emitExact_pure defaultConfig _ name args hp1
  have hm : emitMatches defaultConfig now (exactRegState name st N)
      name args = [] := by
    unfold emitMatches
    apply findMatchingWildcards_nil
    · rw [hsE]
      show (emitStage1 now (exactRegState name st N)).matchCache = []
      unfold emitStage1 cleanupExpiredCache
      dsimp only
      split <;> rfl
    · rw [hsE]
      show (emitStage1 now (exactRegState name st N)).wildcardEvents = []
      rw [h1.2.2.1]
      rfl
  rw [hm, wildEntryList_nil]
  rw [show alGet (exactRegState name st N).events name = some st from by
    simp [exactRegState, alGet, List.find?, initState]]
  simp [exactEntries, exactCallArgs, exactRegState, initState,
    defaultConfig]

theorem emit_wildReg_trace (name ev : String) (st : List HandlerRecord)
    (N fuel now : Nat) (args : List String)
    (hpure : ∀ r ∈ st, recPure r = true)
    (hfuel : st.length ≤ fuel)
    (hm : wildMatch name ev = true) :
    (emitModel defaultConfig fuel now (wildRegState name st N) ev
        args).trace
      = st.map (fun r =>
          (behLabel r.beh,
            ev :: extractWildcardParams name ev ++ args)) := by
  have hp := statePure_wildReg name st N hpure
  have hbn := arraysBounded_wildReg name st N fuel hfuel
  rw [emit_pure_trace defaultConfig fuel now _ ev args hp hbn]
  have h1 := emitStage1_pre now (wildRegState name st N)
  have hp1 : statePure (emitStage1 now (wildRegState name st N))
      = true := by
    unfold statePure at hp ⊢
    rw [h1.2.1, h1.2.2.2.2]
    exact hp
  have hsE := emitExact_pure defaultConfig _ ev args hp1
  have hmm : emitMatches defaultConfig now (wildRegState name st N)
      ev args = [0] := by
    unfold emitMatches
    apply findMatchingWildcards_single _ _ ev name
    · rw [hsE]
      show (emitStage1 now (wildRegState name st N)).matchCache = []
      unfold emitStage1 cleanupExpiredCache
      dsimp only
      split <;> rfl
    · rw [hsE]
      show (emitStage1 now (wildRegState name st N)).wildcardEvents
        = [(name, 0)]
      rw [h1.2.2.1]
      rfl
    · rw [hsE]
      show (emitStage1 now (wildRegState name st N)).wHeap
        = [(0, WData.mk name (splitHead '*' name) 0)]
      rw [h1.2.2.2.1]
      rfl
    · exact hm
  rw [hmm, wildEntryList_wildReg]
  rw [show alGet (wildRegState name st N).events ev = none from rfl]
  simp [exactEntries, wildRegState, initState]

theorem fold_inv_of (recs : List HandlerRecord)
    (hinc : recs.Pairwise (fun a b => a.fnId < b.fnId)) :
    (recs.foldl jsPush []).Pairwise hrel ∧
      (recs.foldl jsPush []).Perm recs := by
  obtain ⟨h1, h2⟩ := jsPush_fold_inv recs [] List.Pairwise.nil
    (by simp) hinc
  exact ⟨h1, by simpa using h2⟩

theorem indexOf_order_of_inv (st : List HandlerRecord)
    (A : List String) (hpw : st.Pairwise hrel)
    (hnd : (st.map (fun r => behLabel r.beh)).Nodup)
    (Ri Rj : HandlerRecord) (hi : Ri ∈ st) (hj : Rj ∈ st)
    (hrelij : hrel Ri Rj) (hne : Ri ≠ Rj) :
    ((st.map (fun r => (behLabel r.beh, A))).map Prod.fst).indexOf
        (behLabel Ri.beh) <
      ((st.map (fun r => (behLabel r.beh, A))).map Prod.fst).indexOf
        (behLabel Rj.beh) := by
  have hcomp : (st.map (fun r => (behLabel r.beh, A))).map Prod.fst
      = st.map (fun r => behLabel r.beh) := by
    simp [List.map_map, Function.comp]
  rw [hcomp]
  exact label_positions st hpw hnd Ri Rj hi hj hrelij hne

/-- C4, counterexample: on the wildcard pattern `"u.*"`, label 1 is
registered with priority 1 and label 2 afterwards with priority 0, yet
`emit "u.x"` invokes label 2 first: line 359's
`Number(priority) || DEFAULT_PRIORITY` remaps the requested priority 0
to 50, so the stored priorities are `[(2, 50), (1, 1)]` and the claimed
`priority(h1) = 1 > 0 = priority(h2) ⇒ h1 before h2` fails. -/
theorem C4_counterexample :
    ((alGet busPrioZero.arrHeap 0).getD []).map
        (fun r => (behLabel r.beh, r.priority)) = [(2, 50), (1, 1)] ∧
      (emitModel defaultConfig 10 0 busPrioZero "u.x" []).trace
        = [(2, ["u.x", "x"]), (1, ["u.x", "x"])] := by
  decide

/-- C4 (amended): for plain handlers registered on one name via `on`,
with every requested priority already in `[0, 100]` and — when the name
is a wildcard pattern — no requested priority equal to `0` (line 359's
`Number(priority) || DEFAULT_PRIORITY` remaps a requested `0` to the
default `50`), emit invokes a handler of strictly greater priority
strictly before one of smaller priority, and handlers of equal priority
in their registration order: the earlier handler's label occurs
strictly earlier in the trace. -/
theorem C4_priority_registration_order (name ev : String)
    (regs : List (Nat × Int)) (args : List String) (fuel now : Nat)
    (hb : jsBlank name = false)
    (hcase : (hasWildcard name = false ∧ ev = name) ∨
      (hasWildcard name = true ∧ countWildcards name ≤ 5 ∧
        wildMatch name ev = true ∧ ∀ r ∈ regs, r.2 ≠ 0))
    (hpr : ∀ r ∈ regs, 0 ≤ r.2 ∧ r.2 ≤ 100)
    (hnd : (regs.map Prod.fst).Nodup)
    (hfuel : regs.length ≤ fuel)
    (i j : Fin regs.length)
    (hij : (regs.get i).2 > (regs.get j).2 ∨
      ((regs.get i).2 = (regs.get j).2 ∧ (i : Nat) < (j : Nat))) :
    (((emitModel defaultConfig fuel now
          (regFold defaultConfig name regs initState) ev args).trace).map
        Prod.fst).indexOf (regs.get i).1 <
      (((emitModel defaultConfig fuel now
          (regFold defaultConfig name regs initState) ev args).trace).map
        Prod.fst).indexOf (regs.get j).1 := by
  have hne_idx : (i : Nat) ≠ (j : Nat) := by
    intro h
    have hji : i = j := Fin.ext h
    subst hji
    rcases hij with h1 | ⟨_, h2⟩
    · exact lt_irrefl _ h1
    · exact lt_irrefl _ h2
  cases regs with
  | nil => exact i.elim0
  | cons r rest =>
    have hmem_reg_i : (r :: rest).get i ∈ r :: rest :=
      List.mem_iff_get.mpr ⟨i, rfl⟩
    have hmem_reg_j : (r :: rest).get j ∈ r :: rest :=
      List.mem_iff_get.mpr ⟨j, rfl⟩
    rcases hcase with ⟨hwn, hev⟩ | ⟨hwn, hcnt, hm, hnz⟩
    · subst hev
      rw [regFold_exact ev r rest hb hwn]
      obtain ⟨hpw, hperm⟩ := fold_inv_of (mkRecs 0 (r :: rest))
        (mkRecs_fnId_lt 0 (r :: rest))
      have hpure : ∀ rc ∈ (mkRecs 0 (r :: rest)).foldl jsPush [],
          recPure rc = true :=
        fun rc hrc => mkRecs_pure 0 (r :: rest) rc (hperm.mem_iff.mp hrc)
      rw [emit_exactReg_trace ev _ ((r :: rest).length) fuel now args
        hpure]
      have hndl : (((mkRecs 0 (r :: rest)).foldl jsPush []).map
          (fun rc => behLabel rc.beh)).Nodup := by
        have hh := hperm.map (fun rc => behLabel rc.beh)
        rw [mkRecs_labels] at hh
        exact hh.nodup_iff.mpr hnd
      have hgi := mkRecs_getElem (r :: rest) 0 (i : Nat) i.isLt
      have hgj := mkRecs_getElem (r :: rest) 0 (j : Nat) j.isLt
      have hmemi : mkRec (0 + (i : Nat)) ((r :: rest).get i)
          ∈ (mkRecs 0 (r :: rest)).foldl jsPush [] := by
        refine hperm.mem_iff.mpr (List.mem_iff_get.mpr
          ⟨⟨(i : Nat), by rw [mkRecs_length]; exact i.isLt⟩, ?_⟩)
        exact hgi
      have hmemj : mkRec (0 + (j : Nat)) ((r :: rest).get j)
          ∈ (mkRecs 0 (r :: rest)).foldl jsPush [] := by
        refine hperm.mem_iff.mpr (List.mem_iff_get.mpr
          ⟨⟨(j : Nat), by rw [mkRecs_length]; exact j.isLt⟩, ?_⟩)
        exact hgj
      have hpri : (mkRec (0 + (i : Nat)) ((r :: rest).get i)).priority
          = ((r :: rest).get i).2 :=
        clampPriority_eq _ (hpr _ hmem_reg_i).1 (hpr _ hmem_reg_i).2
      have hprj : (mkRec (0 + (j : Nat)) ((r :: rest).get j)).priority
          = ((r :: rest).get j).2 :=
        clampPriority_eq _ (hpr _ hmem_reg_j).1 (hpr _ hmem_reg_j).2
      have hrelij : hrel (mkRec (0 + (i : Nat)) ((r :: rest).get i))
          (mkRec (0 + (j : Nat)) ((r :: rest).get j)) := by
        rcases hij with h | ⟨h1, h2⟩
        · left
          rw [hpri, hprj]
          exact h
        · right
          refine ⟨by rw [hpri, hprj]; exact h1, ?_⟩
          show 0 + (i : Nat) < 0 + (j : Nat)
          omega
      have hneR : mkRec (0 + (i : Nat)) ((r :: rest).get i)
          ≠ mkRec (0 + (j : Nat)) ((r :: rest).get j) := by
        intro h
        have hids : 0 + (i : Nat) = 0 + (j : Nat) :=
          congrArg HandlerRecord.fnId h
        omega
      exact indexOf_order_of_inv _ args hpw hndl _ _ hmemi hmemj
        hrelij hneR
    · rw [regFold_wild name r rest hb hwn hcnt]
      obtain ⟨hpw, hperm⟩ := fold_inv_of
        (mkRecsW defaultConfig 0 (r :: rest))
        (mkRecsW_fnId_lt defaultConfig 0 (r :: rest))
      have hpure : ∀ rc ∈ (mkRecsW defaultConfig 0 (r :: rest)).foldl
          jsPush [], recPure rc = true :=
        fun rc hrc =>
          mkRecsW_pure defaultConfig 0 (r :: rest) rc
            (hperm.mem_iff.mp hrc)
      have hlen : ((mkRecsW defaultConfig 0 (r :: rest)).foldl
          jsPush []).length ≤ fuel := by
        rw [hperm.length_eq, mkRecsW_length]
        exact hfuel
      rw [emit_wildReg_trace name ev _ ((r :: rest).length) fuel now
        args hpure hlen hm]
      have hndl : (((mkRecsW defaultConfig 0 (r :: rest)).foldl
          jsPush []).map (fun rc => behLabel rc.beh)).Nodup := by
        have hh := hperm.map (fun rc => behLabel rc.beh)
        rw [mkRecsW_labels] at hh
        exact hh.nodup_iff.mpr hnd
      have hgi := mkRecsW_getElem defaultConfig (r :: rest) 0 (i : Nat)
        i.isLt
      have hgj := mkRecsW_getElem defaultConfig (r :: rest) 0 (j : Nat)
        j.isLt
      have hmemi : mkRecW defaultConfig (0 + (i : Nat))
            ((r :: rest).get i)
          ∈ (mkRecsW defaultConfig 0 (r :: rest)).foldl jsPush [] := by
        refine hperm.mem_iff.mpr (List.mem_iff_get.mpr
          ⟨⟨(i : Nat), by rw [mkRecsW_length]; exact i.isLt⟩, ?_⟩)
        exact hgi
      have hmemj : mkRecW defaultConfig (0 + (j : Nat))
            ((r :: rest).get j)
          ∈ (mkRecsW defaultConfig 0 (r :: rest)).foldl jsPush [] := by
        refine hperm.mem_iff.mpr (List.mem_iff_get.mpr
          ⟨⟨(j : Nat), by rw [mkRecsW_length]; exact j.isLt⟩, ?_⟩)
        exact hgj
      have hpri : (mkRecW defaultConfig (0 + (i : Nat))
          ((r :: rest).get i)).priority = ((r :: rest).get i).2 := by
        show jsOrDefault (clampPriority ((r :: rest).get i).2)
          defaultConfig.defaultPriority = ((r :: rest).get i).2
        rw [clampPriority_eq _ (hpr _ hmem_reg_i).1 (hpr _ hmem_reg_i).2]
        exact jsOrDefault_eq _ _ (hnz _ hmem_reg_i)
      have hprj : (mkRecW defaultConfig (0 + (j : Nat))
          ((r :: rest).get j)).priority = ((r :: rest).get j).2 := by
        show jsOrDefault (clampPriority ((r :: rest).get j).2)
          defaultConfig.defaultPriority = ((r :: rest).get j).2
        rw [clampPriority_eq _ (hpr _ hmem_reg_j).1 (hpr _ hmem_reg_j).2]
        exact jsOrDefault_eq _ _ (hnz _ hmem_reg_j)
      have hrelij : hrel
          (mkRecW defaultConfig (0 + (i : Nat)) ((r :: rest).get i))
          (mkRecW defaultConfig (0 + (j : Nat)) ((r :: rest).get j)) := by
        rcases hij with h | ⟨h1, h2⟩
        · left
          rw [hpri, hprj]
          exact h
        · right
          refine ⟨by rw [hpri, hprj]; exact h1, ?_⟩
          show 0 + (i : Nat) < 0 + (j : Nat)
          omega
      have hneR : mkRecW defaultConfig (0 + (i : Nat))
            ((r :: rest).get i)
          ≠ mkRecW defaultConfig (0 + (j : Nat)) ((r :: rest).get j) := by
        intro h
        have hids : 0 + (i : Nat) = 0 + (j : Nat) :=
          congrArg HandlerRecord.fnId h
        omega
      exact indexOf_order_of_inv _
        (ev :: extractWildcardParams name ev ++ args) hpw hndl _ _
        hmemi hmemj hrelij hneR

/-- C4 witness: three handlers on the plain name `"evt"` with
priorities 60, 60, 30; the two priority-60 handlers run in registration
order, label 10 before label 11. -/
theorem C4_priority_registration_order_witness :
    (((emitModel defaultConfig 3 0
          (regFold defaultConfig "evt" [(10, 60), (11, 60), (12, 30)]
            initState) "evt" []).trace).map Prod.fst).indexOf 10 <
      (((emitModel defaultConfig 3 0
          (regFold defaultConfig "evt" [(10, 60), (11, 60), (12, 30)]
            initState) "evt" []).trace).map Prod.fst).indexOf 11 :=
  C4_priority_registration_order "evt" "evt"
    [(10, 60), (11, 60), (12, 30)] [] 3 0 (by decide)
    (Or.inl ⟨by decide, rfl⟩) (by decide) (by decide) (by decide)
    ⟨0, by decide⟩ ⟨1, by decide⟩ (Or.inr ⟨by decide, by decide⟩)

theorem isPrefixOf_append_right (l e s : List Char)
    (h : l.isPrefixOf e = true) : l.isPrefixOf (e ++ s) = true := by
  induction l generalizing e with
  | nil => simp [List.isPrefixOf]
  | cons c cs ih =>
    cases e with
    | nil => simp [List.isPrefixOf] at h
    | cons x es =>
      simp only [List.isPrefixOf, List.cons_append,
        Bool.and_eq_true] at h ⊢
      exact ⟨h.1, ih es h.2⟩

/-- When the pattern matches `ev`, every cache key derived from `ev`
starts with the pattern's literal head — so `clearRelatedMatchCache`
removes it. -/
theorem jsStartsWith_key (pat ev suf : String)
    (hm : wildMatch pat ev = true) :
    jsStartsWith (ev ++ suf) (splitHead '*' pat) = true := by
  unfold jsStartsWith splitHead
  rw [toList_asString]
  have h2 : (ev ++ suf).toList = ev.toList ++ suf.toList :=
    String.data_append ev suf
  rw [h2]
  exact isPrefixOf_append_right _ _ _
    (wexec_isPrefix pat.toList ev.toList hm)

/-- `once` on a wildcard pattern registers the wrapper through
`addWildcardIndex` (and still raises the line-576 `ReferenceError`). -/
theorem onceModel_init_wild (pat : String) (L : Nat)
    (hb : jsBlank pat = false) (hw : hasWildcard pat = true)
    (hcnt : countWildcards pat ≤ 5) :
    (onceModel defaultConfig initState pat L []).1
      = wildOnceBus pat L := by
  have hc : ¬(countWildcards pat >
      defaultConfig.maxWildcardsPerPattern) := by
    simp only [defaultConfig]
    omega
  have hc5 : ¬(5 < countWildcards pat) := by omega
  simp [onceModel, onModel, addWildcardIndex, awiPush,
    clearRelatedMatchCache, hb, hw, hc, hc5, alGet, alSet, List.find?,
    initState, wildOnceBus, onceWRec, sortDesc, insertDesc,
    jsOrDefault, defaultConfig]

/-- Full-state version of the single-pattern cache-miss lookup. -/
theorem findMatchingWildcards_single_state (now : Nat) (s : BusState)
    (ev name : String) (hmc : s.matchCache = [])
    (hwe : s.wildcardEvents = [(name, 0)])
    (hwh : s.wHeap = [(0, WData.mk name (splitHead '*' name) 0)])
    (hm : wildMatch name ev = true) :
    findMatchingWildcards now s ev
      = ({ s with
             cacheMissCount := (s.cacheMissCount + 1)
           , matchCache := ([(ev ++ ":match",
               { hits := [0], timestamp := now })]) }, [0]) := by
  unfold findMatchingWildcards
  dsimp only
  rw [show alGet s.matchCache (ev ++ ":match") = none from by
    rw [hmc]; rfl]
  dsimp only
  rw [hwe]
  simp only [List.foldl_cons, List.foldl_nil]
  rw [show alGet s.wHeap 0
      = some (WData.mk name (splitHead '*' name) 0) from by
    rw [hwh]; rfl]
  dsimp only
  have hsw : jsStartsWith ev (splitHead '*' name) = true := by
    unfold jsStartsWith splitHead
    rw [toList_asString]
    exact wexec_isPrefix name.toList ev.toList hm
  rw [hsw]
  simp [hm, hmc, alSet]

/-- The wrapper's `self.off(pat, onceHandler)` on the mid-emit state:
`removeWildcardIndex` by function reference empties the pattern's
handler array (into a fresh array object), deletes the pattern and its
regex-cache entry, and clears the related match cache. -/
theorem off_wildOnceMid (pat ev : String) (L now : Nat)
    (args : List String)
    (hw : hasWildcard pat = true) (hm : wildMatch pat ev = true) :
    offModel (wildOnceMid pat ev L now args) pat (OffArg.byFn 0)
      = wildOnceDone pat ev L now args := by
  have hkey : jsStartsWith (ev ++ ":match") (splitHead '*' pat)
      = true := jsStartsWith_key pat ev ":match" hm
  unfold offModel
  rw [if_pos hw]
  unfold removeWildcardIndex clearRelatedMatchCache
  simp [wildOnceMid, wildOnceDone, wildOnceBus, initState, onceWRec,
    alGet, alSet, alDel, List.find?, hkey, List.filter]

/-- The live loop over the matched pattern: one invocation of the
wrapper (which unsubscribes itself mid-pass; the old array object keeps
its one element, so the loop then ends). -/
theorem liveLoop_wildOnce (pat ev : String) (L : Nat)
    (args : List String) (g now : Nat)
    (hw : hasWildcard pat = true) (hm : wildMatch pat ev = true) :
    liveLoop defaultConfig ev args 0 (g + 2) 0
        { wildOnceBus pat L with
            emitCount := 1
          , cacheMissCount := 1
          , matchCache := ([(ev ++ ":match",
              { hits := [0], timestamp := now })])
          , wildcardMatchCount := 1 }
      = wildOnceDone pat ev L now args := by
  have h1 : liveLoop defaultConfig ev args 0 (g + 2) 0
        { wildOnceBus pat L with
            emitCount := 1
          , cacheMissCount := 1
          , matchCache := ([(ev ++ ":match",
              { hits := [0], timestamp := now })])
          , wildcardMatchCount := 1 }
      = liveLoop defaultConfig ev args 0 (g + 1) 1
          (offModel (wildOnceMid pat ev L now args) pat
            (OffArg.byFn 0)) := rfl
  rw [h1, off_wildOnceMid pat ev L now args hw hm]
  rfl

/-- The first matching `emit` on a wildcard `once` registration. -/
theorem once_first_emit_wild (pat ev : String) (L : Nat)
    (args : List String) (g now : Nat)
    (hw : hasWildcard pat = true) (hm : wildMatch pat ev = true) :
    emitModel defaultConfig (g + 2) now (wildOnceBus pat L) ev args
      = wildOnceDone pat ev L now args := by
  unfold emitModel
  show emitWild defaultConfig (g + 2) now
      { wildOnceBus pat L with emitCount := 1 } ev args
    = wildOnceDone pat ev L now args
  have hF : findMatchingWildcards now
        { wildOnceBus pat L with emitCount := 1 } ev
      = ({ wildOnceBus pat L with
             emitCount := 1
           , cacheMissCount := 1
           , matchCache := ([(ev ++ ":match",
               { hits := [0], timestamp := now })]) }, [0]) :=
    findMatchingWildcards_single_state now
      { wildOnceBus pat L with emitCount := 1 } ev pat rfl rfl rfl hm
  unfold emitWild
  dsimp only
  rw [hF]
  dsimp only
  rw [if_pos (by decide : ([0] : List Nat).length > 0)]
  show wildPatterns defaultConfig (g + 2) ev args
      { wildOnceBus pat L with
          emitCount := 1
        , cacheMissCount := 1
        , matchCache := ([(ev ++ ":match",
            { hits := [0], timestamp := now })])
        , wildcardMatchCount := 1 } [0]
    = wildOnceDone pat ev L now args
  rw [show wildPatterns defaultConfig (g + 2) ev args
      { wildOnceBus pat L with
          emitCount := 1
        , cacheMissCount := 1
        , matchCache := ([(ev ++ ":match",
            { hits := [0], timestamp := now })])
        , wildcardMatchCount := 1 } [0]
    = liveLoop defaultConfig ev args 0 (g + 2) 0
        { wildOnceBus pat L with
            emitCount := 1
          , cacheMissCount := 1
          , matchCache := ([(ev ++ ":match",
              { hits := [0], timestamp := now })])
          , wildcardMatchCount := 1 } from rfl]
  exact liveLoop_wildOnce pat ev L args g now hw hm

theorem alSet_mem {κ α : Type} [BEq κ] (m : List (κ × α)) (k : κ)
    (v : α) (kv : κ × α) (h : kv ∈ alSet m k v) :
    kv.2 = v ∨ kv ∈ m := by
  unfold alSet at h
  split at h
  · obtain ⟨x, hx, hmap⟩ := List.mem_map.mp h
    by_cases hxk : (x.1 == k) = true
    · rw [if_pos hxk] at hmap
      left
      rw [← hmap]
    · rw [if_neg hxk] at hmap
      right
      rw [← hmap]
      exact hx
  · rcases List.mem_append.mp h with h1 | h1
    · right
      exact h1
    · left
      have h2 : kv = (k, v) := by simpa using h1
      rw [h2]

theorem alDel_mem {κ α : Type} [BEq κ] (m : List (κ × α)) (k : κ)
    (kv : κ × α) (h : kv ∈ alDel m k) : kv ∈ m :=
  (List.mem_filter.mp h).1

theorem foldl_alDel_mem {κ α : Type} [BEq κ] (ks : List κ) :
    ∀ (m : List (κ × α)) (kv : κ × α),
      kv ∈ ks.foldl (fun m k => alDel m k) m → kv ∈ m := by
  induction ks with
  | nil => intro m kv h; exact h
  | cons k rest ih =>
    intro m kv h
    simp only [List.foldl_cons] at h
    exact alDel_mem m k kv (ih _ kv h)

theorem checkCacheSize_mem (s : BusState) (kv : String × CacheEntry)
    (h : kv ∈ (checkCacheSize s).matchCache) : kv ∈ s.matchCache := by
  unfold checkCacheSize at h
  split at h
  · exact foldl_alDel_mem _ _ _ h
  · exact h

theorem emitStage1_cache_mem (now : Nat) (s : BusState)
    (kv : String × CacheEntry)
    (h : kv ∈ (emitStage1 now s).matchCache) : kv ∈ s.matchCache := by
  unfold emitStage1 at h
  dsimp only at h
  split at h
  · exact (List.mem_filter.mp h).1
  · exact h

/-- With no wildcard registrations left, a lookup returns no matches
and keeps every cache entry's match list empty. -/
theorem findMatchingWildcards_no_wild (now : Nat) (s : BusState)
    (ev : String) (hwe : s.wildcardEvents = [])
    (hc : ∀ kv ∈ s.matchCache, kv.2.hits = []) :
    (findMatchingWildcards now s ev).2 = [] ∧
    ∀ kv ∈ (findMatchingWildcards now s ev).1.matchCache,
      kv.2.hits = [] := by
  unfold findMatchingWildcards
  dsimp only
  cases halg : alGet s.matchCache (ev ++ ":match") with
  | some entry =>
    dsimp only
    have hmem : ∃ kv0 ∈ s.matchCache, kv0.2 = entry := by
      unfold alGet at halg
      cases hfind : s.matchCache.find?
          (fun kv => kv.1 == ev ++ ":match") with
      | none => rw [hfind] at halg; simp at halg
      | some kv0 =>
        rw [hfind] at halg
        simp at halg
        exact ⟨kv0, List.mem_of_find?_eq_some hfind, halg⟩
    obtain ⟨kv0, hkv0, hev0⟩ := hmem
    have hentry : entry.hits = [] := by
      rw [← hev0]
      exact hc kv0 hkv0
    refine ⟨hentry, ?_⟩
    intro kv hkv
    rcases alSet_mem s.matchCache (ev ++ ":match")
        { entry with timestamp := now } kv hkv with h | h
    · rw [h]; exact hentry
    · exact hc kv h
  | none =>
    dsimp only
    rw [hwe]
    simp only [List.foldl_nil]
    refine ⟨by trivial, ?_⟩
    intro kv hkv
    split at hkv
    · have h2 := checkCacheSize_mem _ kv hkv
      rcases alSet_mem s.matchCache (ev ++ ":match")
          { hits := [], timestamp := now } kv
          (show kv ∈ alSet s.matchCache (ev ++ ":match")
              { hits := [], timestamp := now } from h2) with h | h
      · rw [h]
      · exact hc kv h
    · rcases alSet_mem s.matchCache (ev ++ ":match")
          { hits := [], timestamp := now } kv
          (show kv ∈ alSet s.matchCache (ev ++ ":match")
              { hits := [], timestamp := now } from hkv) with h | h
      · rw [h]
      · exact hc kv h

/-- An `emit` on a bus with no exact and no wildcard registrations (the
cache may hold empty match lists) invokes nothing and preserves that
shape. -/
theorem emit_no_wild (cfg : Config) (fuel now : Nat) (s : BusState)
    (ev : String) (args : List String)
    (he : s.events = []) (hw : s.wildcardEvents = [])
    (hc : ∀ kv ∈ s.matchCache, kv.2.hits = []) :
    (emitModel cfg fuel now s ev args).events = [] ∧
    (emitModel cfg fuel now s ev args).wildcardEvents = [] ∧
    (∀ kv ∈ (emitModel cfg fuel now s ev args).matchCache,
      kv.2.hits = []) ∧
    (emitModel cfg fuel now s ev args).trace = s.trace := by
  obtain ⟨h1t, h1e, h1w, h1h, _⟩ := emitStage1_pre now s
  have hE : emitExact cfg (emitStage1 now s) ev args
      = emitStage1 now s := by
    unfold emitExact
    rw [show alGet (emitStage1 now s).events ev = none from by
      rw [h1e, he]; rfl]
    rfl
  unfold emitModel
  rw [hE]
  have hc1 : ∀ kv ∈ (emitStage1 now s).matchCache, kv.2.hits = [] :=
    fun kv hkv => hc kv (emitStage1_cache_mem now s kv hkv)
  have hw1 : (emitStage1 now s).wildcardEvents = [] := h1w.trans hw
  obtain ⟨hf2, hfc⟩ :=
    findMatchingWildcards_no_wild now (emitStage1 now s) ev hw1 hc1
  obtain ⟨hft, hfe, hfw, hfh, _⟩ :=
    findMatchingWildcards_pre now (emitStage1 now s) ev
  unfold emitWild
  dsimp only
  rw [hf2]
  rw [if_neg (by decide : ¬(([] : List Nat).length > 0))]
  rw [show wildPatterns cfg fuel ev args
      (findMatchingWildcards now (emitStage1 now s) ev).1 []
    = (findMatchingWildcards now (emitStage1 now s) ev).1 from rfl]
  exact ⟨hfe.trans (h1e.trans he), hfw.trans hw1, hfc,
    hft.trans h1t⟩

/-- Any number of further emissions on such a bus leave the trace
untouched. -/
theorem emitSeq_no_wild (cfg : Config) (fuel : Nat) (ev : String)
    (args : List String) (nows : List Nat) (s : BusState)
    (he : s.events = []) (hw : s.wildcardEvents = [])
    (hc : ∀ kv ∈ s.matchCache, kv.2.hits = []) :
    (emitSeq cfg fuel ev args nows s).trace = s.trace := by
  induction nows generalizing s with
  | nil => rfl
  | cons nw rest ih =>
    unfold emitSeq
    simp only [List.foldl_cons]
    obtain ⟨e1, w1, c1, t1⟩ := emit_no_wild cfg fuel nw s ev args he hw hc
    unfold emitSeq at ih
    rw [ih _ e1 w1 c1, t1]

/-- **C6 (amended)** — a handler registered via `once` — on a plain
event name or on a wildcard pattern — whose body *returns normally* is
invoked on exactly the first matching emit: the self-unsubscription
runs, the registration is removed, and any number of further emits of
the same event invoke nothing.  (When the handler throws, the
self-unsubscription is skipped — see the counterexample — so the "even
when the handler throws" half of the claim is dropped.)  `once` itself
still raises the line-576 `ReferenceError` to its caller, but the
registration stands.  On the wildcard path the handler receives the
event name and the captured segments before the emit arguments. -/
theorem C6_once_normal_fires_exactly_once (pat ev : String) (L : Nat)
    (args : List String) (fuel now : Nat) (nows : List Nat)
    (hb : jsBlank pat = false) (hfuel : 2 ≤ fuel)
    (hcase : (hasWildcard pat = false ∧ ev = pat) ∨
      (hasWildcard pat = true ∧ countWildcards pat ≤ 5 ∧
        wildMatch pat ev = true)) :
    (emitSeq defaultConfig fuel ev args nows
        (emitModel defaultConfig fuel now
          (onceModel defaultConfig initState pat L []).1 ev args)).trace
      = [(L, if hasWildcard pat = true
             then ev :: extractWildcardParams pat ev ++ args
             else args)] := by
  rcases hcase with ⟨hw, hev⟩ | ⟨hw, hcnt, hm⟩
  · subst hev
    rw [onceModel_init ev L hb hw]
    obtain ⟨t1, e1, w1, h1⟩ := once_first_emit ev L args fuel now hw
    rw [emitSeq_empty defaultConfig fuel ev args nows _ e1 w1 h1, t1]
    rw [if_neg (by simp [hw])]
  · rw [onceModel_init_wild pat L hb hw hcnt]
    obtain ⟨g, rfl⟩ : ∃ g, fuel = g + 2 := ⟨fuel - 2, by omega⟩
    rw [once_first_emit_wild pat ev L args g now hw hm]
    have hde : (wildOnceDone pat ev L now args).events = [] := rfl
    have hdw : (wildOnceDone pat ev L now args).wildcardEvents
        = [] := rfl
    have hdc : ∀ kv ∈ (wildOnceDone pat ev L now args).matchCache,
        kv.2.hits = [] := by
      intro kv hkv
      exact absurd
        (show kv ∈ ([] : List (String × CacheEntry)) from hkv)
        (List.not_mem_nil kv)
    rw [emitSeq_no_wild defaultConfig (g + 2) ev args nows _
      hde hdw hdc]
    rw [show (wildOnceDone pat ev L now args).trace
      = [(L, ev :: extractWildcardParams pat ev ++ args)] from rfl]
    rw [if_pos hw]

/-- Witness for the amended C6, on the wildcard path: `once("a.*", f)`,
`emit("a.b","x")`, then two more emits of `"a.b"` — `f` ran exactly
once, receiving `("a.b", "b", "x")`. -/
theorem C6_once_normal_fires_exactly_once_witness :
    (emitSeq defaultConfig 2 "a.b" ["x"] [1, 2]
        (emitModel defaultConfig 2 0
          (onceModel defaultConfig initState "a.*" 7 []).1
          "a.b" ["x"])).trace
      = [(7, ["a.b", "b", "x"])] :=
  C6_once_normal_fires_exactly_once "a.*" "a.b" 7 ["x"] 2 0 [1, 2]
    (by decide) (by decide)
    (Or.inr ⟨by decide, by decide, by decide⟩)

end Trame
